import Mathlib

/-!
menu-digital: the order / table / stock engine of `src/js/app.js`

A shallow embedding of the `App` object of `src/js/app.js`.

* `App.data` becomes the record `State`; every method of `App` that mutates
  `App.data` becomes a function from `State` to `State` (with the returned
  value, when the method returns one).
* JavaScript objects are embedded as values: a cart line is the record that
  was handed to `addToCart`, an order holds the lines that were in the cart.
* The clock (`Date.now()`, `new Date().toISOString()`) and the answer of
  `confirm(...)` are inputs of the operations that read them.
* `alert`, `console`, `dispatchEvent` and `localStorage` writes do not change
  `App.data` and are left out, except that `placeOrder` reports which of its
  three alerts was shown (it returns `undefined` on every path).
* Prices, stocks and party sizes are integers (`Int`).
-/

namespace MenuDigital

/-! ## JavaScript helpers -/

/-- Values received by `parseInt`: `undefined` (a missing argument), an integer
number (of magnitude below `10^21`, where `ToString` gives its decimal digits)
or a string (the value of a form field). -/
inductive JsVal where
  | undefined
  | num (n : Int)
  | str (s : String)
  deriving DecidableEq, Repr

/-- Code points that ECMAScript `parseInt` skips at the start of its input
(`WhiteSpace` and `LineTerminator`). -/
def isStrWhiteSpace (c : Char) : Bool :=
  let n := c.toNat
  n == 9 || n == 10 || n == 11 || n == 12 || n == 13 || n == 32 || n == 160
    || n == 5760 || (8192 ≤ n && n ≤ 8202) || n == 8232 || n == 8233
    || n == 8239 || n == 8287 || n == 12288 || n == 65279

/-- Value of `c` as a digit in the given radix, if it is one. -/
def digitValue (radix : Nat) (c : Char) : Option Nat :=
  let n := c.toNat
  let v : Option Nat :=
    if 48 ≤ n ∧ n ≤ 57 then some (n - 48)
    else if 97 ≤ n ∧ n ≤ 122 then some (n - 87)
    else if 65 ≤ n ∧ n ≤ 90 then some (n - 55)
    else none
  v.filter (fun d => d < radix)

/-- Reads the longest run of radix digits at the start of the input; `acc` is
`none` until a first digit has been read. -/
def readDigits (radix : Nat) : List Char → Option Nat → Option Nat
  | [], acc => acc
  | c :: cs, acc =>
    match digitValue radix c with
    | none => acc
    | some d => readDigits radix cs (some (acc.getD 0 * radix + d))

/-- ECMAScript `parseInt(string)` with no radix argument, on the characters of
the string; `none` stands for `NaN`. -/
def parseIntChars (cs : List Char) : Option Int :=
  let s := cs.dropWhile isStrWhiteSpace
  let negative : Bool := s.head? == some (Char.ofNat 45)
  let s := if s.head? == some (Char.ofNat 45) || s.head? == some (Char.ofNat 43) then s.tail else s
  let hex : Bool :=
    s.head? == some (Char.ofNat 48) &&
      (s.tail.head? == some (Char.ofNat 120) || s.tail.head? == some (Char.ofNat 88))
  let digits := if hex then readDigits 16 (s.drop 2) none else readDigits 10 s none
  digits.map (fun m => if negative then - (m : Int) else (m : Int))

/-- ECMAScript `parseInt(v)`; `none` stands for `NaN`. -/
def parseInt : JsVal → Option Int
  | JsVal.undefined => none
  | JsVal.num n => some n
  | JsVal.str s => parseIntChars s.data

/-- The expression `parseInt(v) || 0`: `NaN` and `0` are falsy. -/
def parseIntOr0 (v : JsVal) : Int :=
  match parseInt v with
  | none => 0
  | some n => if n = 0 then 0 else n

/-- `Array.prototype.splice(index, 1)` on a list: a negative index counts from
the end, the start is clamped to `[0, length]`, and one element is removed when
there is one at the start position. -/
def splice1 {α : Type} (index : Int) (xs : List α) : List α :=
  let len : Int := xs.length
  let start : Int := if index < 0 then max (len + index) 0 else min index len
  xs.eraseIdx start.toNat

/-! ## Data model (`App.data`) -/

/-- A menu item; cart lines, order lines and table lines are such records too
(`App.data.cart.push(item)`). -/
structure Item where
  id : Nat
  name : String
  price : Int
  stock : Int
  deriving DecidableEq, Repr

/-- One entry of `App.data.menu.categories`. -/
structure Category where
  id : String
  items : List Item
  deriving DecidableEq, Repr

/-- The `status` of an order. -/
inductive OrderStatus where
  | pending
  | ready
  deriving DecidableEq, Repr

/-- An entry of `App.data.orders`. -/
structure Order where
  id : Nat
  tableId : Nat
  items : List Item
  status : OrderStatus
  timestamp : String
  deriving DecidableEq, Repr

/-- The `status` of a table. -/
inductive TableStatus where
  | free
  | occupied
  deriving DecidableEq, Repr

/-- A value of `App.data.tables`. -/
structure Table where
  items : List Item
  total : Int
  status : TableStatus
  adults : Int
  children : Int
  deriving DecidableEq, Repr

/-- An entry of `App.data.sales`. -/
structure Sale where
  id : Nat
  tableId : Nat
  items : List Item
  total : Int
  adults : Int
  children : Int
  timestamp : String
  deriving DecidableEq, Repr

/-- The object `App.data`; `menu` is `App.data.menu.categories` and `tables`
maps a key to the table stored under it, if any. -/
structure State where
  menu : List Category
  cart : List Item
  orders : List Order
  tables : Nat → Option Table
  sales : List Sale
  totalTables : Nat

/-- The literal `{ items: [], total: 0, status: 'free', adults: 0, children: 0 }`. -/
def freeTable : Table :=
  { items := [], total := 0, status := TableStatus.free, adults := 0, children := 0 }

/-- The literal `{ items: [], total: 0, status: 'occupied', adults: 0, children: 0 }`. -/
def occupiedTable : Table :=
  { items := [], total := 0, status := TableStatus.occupied, adults := 0, children := 0 }

/-- The assignment `tables[i] = t`. -/
def setTable (tables : Nat → Option Table) (i : Nat) (t : Table) : Nat → Option Table :=
  fun k => if k = i then some t else tables k

/-! ## Operations -/

/-- The loop of `initTables`, `for (let i = 1; i <= n; i++)`: a missing table
is created free. -/
def initLoop : Nat → (Nat → Option Table) → (Nat → Option Table)
  | 0, tables => tables
  | n + 1, tables =>
    let tables1 := initLoop n tables
    match tables1 (n + 1) with
    | none => setTable tables1 (n + 1) freeTable
    | some _ => tables1

/-- `App.initTables`. -/
def initTables (s : State) : State :=
  { s with tables := initLoop s.totalTables s.tables }

/-- `App.data` as the module creates it (with the menu that `loadMenu` found),
after `App.initTables`. -/
def initState (menu : List Category) (totalTables : Nat) : State :=
  initTables
    { menu := menu, cart := [], orders := [], tables := fun _ => none, sales := [],
      totalTables := totalTables }

/-- `App.data.cart.filter(i => i.id === item.id).length`. -/
def countInCart (cart : List Item) (id : Nat) : Nat :=
  (cart.filter (fun i => i.id == id)).length

/-- `App.addToCart`: the returned boolean and the state afterwards. -/
def addToCart (item : Item) (s : State) : Bool × State :=
  if item.stock ≤ 0 then (false, s)
  else if (countInCart s.cart item.id : Int) ≥ item.stock then (false, s)
  else (true, { s with cart := s.cart ++ [item] })

/-- `App.removeFromCart`. -/
def removeFromCart (index : Int) (s : State) : State :=
  { s with cart := splice1 index s.cart }

/-- In one category: `const menuItem = cat.items.find(i => i.id === id);
if (menuItem) menuItem.stock -= 1;`. -/
def decrementFirst (id : Nat) : List Item → List Item
  | [] => []
  | i :: rest =>
    if i.id = id then { i with stock := i.stock - 1 } :: rest
    else i :: decrementFirst id rest

/-- The inner `categories.forEach` of `placeOrder` for one cart line. -/
def discountLine (cartItem : Item) (menu : List Category) : List Category :=
  menu.map (fun cat => { cat with items := decrementFirst cartItem.id cat.items })

/-- Step 1 of `placeOrder`: `App.data.cart.forEach(cartItem => ...)`. -/
def discountStock (cart : List Item) (menu : List Category) : List Category :=
  cart.foldl (fun m cartItem => discountLine cartItem m) menu

/-- `cart.reduce((sum, item) => sum + item.price, 0)`. -/
def sumPrices (items : List Item) : Int :=
  items.foldl (fun sum item => sum + item.price) 0

/-- Which alert `placeOrder` showed. -/
inductive PlaceOutcome where
  | emptyCart
  | zeroPax
  | sent
  deriving DecidableEq, Repr

/-- `App.placeOrder`; `now` is `Date.now()` and `timestamp` is
`new Date().toISOString()`. -/
def placeOrder (now : Nat) (timestamp : String) (tableId : Nat) (adults children : JsVal)
    (s : State) : PlaceOutcome × State :=
  if s.cart.length = 0 then (PlaceOutcome.emptyCart, s)
  else
    let totalPax := parseIntOr0 adults + parseIntOr0 children
    if totalPax ≤ 0 then (PlaceOutcome.zeroPax, s)
    else
      let menu := discountStock s.cart s.menu
      let newOrder : Order :=
        { id := now, tableId := tableId, items := s.cart, status := OrderStatus.pending,
          timestamp := timestamp }
      let orders := s.orders ++ [newOrder]
      let tab : Table :=
        match s.tables tableId with
        | none => occupiedTable
        | some t => if t.status = TableStatus.free then occupiedTable else t
      let tab := { tab with items := tab.items ++ s.cart }
      let tab := { tab with total := tab.total + sumPrices s.cart }
      let tab := { tab with adults := parseIntOr0 adults }
      let tab := { tab with children := parseIntOr0 children }
      let tab := { tab with status := TableStatus.occupied }
      (PlaceOutcome.sent,
        { s with menu := menu, orders := orders, tables := setTable s.tables tableId tab,
                 cart := [] })

/-- In `markOrderReady`: `const order = orders.find(o => o.id === orderId);
if (order) order.status = 'ready'`. -/
def markFirstReady (orderId : Nat) : List Order → List Order
  | [] => []
  | o :: rest =>
    if o.id = orderId then { o with status := OrderStatus.ready } :: rest
    else o :: markFirstReady orderId rest

/-- `App.markOrderReady`. -/
def markOrderReady (orderId : Nat) (s : State) : State :=
  { s with orders := markFirstReady orderId s.orders }

/-- In one category of `updateStock`: `const item = cat.items.find(i => i.id === itemId);
if (item) item.stock = v`. -/
def setStockFirst (itemId : Nat) (v : Int) : List Item → List Item
  | [] => []
  | i :: rest =>
    if i.id = itemId then { i with stock := v } :: rest
    else i :: setStockFirst itemId v rest

/-- `App.updateStock`: the returned boolean (`found`) and the state afterwards. -/
def updateStock (itemId : Nat) (newStock : JsVal) (s : State) : Bool × State :=
  (s.menu.any (fun cat => cat.items.any (fun i => i.id == itemId)),
   { s with menu := s.menu.map (fun cat =>
       { cat with items := setStockFirst itemId (parseIntOr0 newStock) cat.items }) })

/-- `App.closeTable`: the returned boolean and the state afterwards; `now` is
`Date.now()` and `timestamp` is `new Date().toISOString()`. -/
def closeTable (now : Nat) (timestamp : String) (tableId : Nat) (s : State) : Bool × State :=
  match s.tables tableId with
  | none => (false, s)
  | some table =>
    if table.status = TableStatus.free then (false, s)
    else
      let sale : Sale :=
        { id := now, tableId := tableId, items := table.items, total := table.total,
          adults := if table.adults = 0 then 0 else table.adults,
          children := if table.children = 0 then 0 else table.children,
          timestamp := timestamp }
      (true,
        { s with sales := s.sales ++ [sale],
                 tables := setTable s.tables tableId freeTable,
                 orders := s.orders.filter (fun o => o.tableId != tableId) })

/-- The loop of `closeDay`, `for (let i = 1; i <= n; i++) tables[i] = {...}`. -/
def resetLoop : Nat → (Nat → Option Table) → (Nat → Option Table)
  | 0, tables => tables
  | n + 1, tables => setTable (resetLoop n tables) (n + 1) freeTable

/-- `App.closeDay`; `confirmed` is the answer of `confirm(...)`. -/
def closeDay (confirmed : Bool) (s : State) : State :=
  if confirmed then
    { s with sales := [], orders := [], tables := resetLoop s.totalTables s.tables }
  else s

/-! ## Reports -/

/-- A value of the object built by `getItemsSoldReport`. -/
structure ReportEntry where
  quantity : Int
  total : Int
  deriving DecidableEq, Repr

/-- The names of the members of `Object.prototype`, which the object literal
`{}` inherits; each of them is a function or an object, hence truthy. -/
def objectPrototypeKeys : List String :=
  ["constructor", "__defineGetter__", "__defineSetter__", "hasOwnProperty",
   "__lookupGetter__", "__lookupSetter__", "isPrototypeOf", "propertyIsEnumerable",
   "toString", "valueOf", "__proto__", "toLocaleString"]

/-- What `report[name]` evaluates to: `undefined`, an entry that the report
owns, or the member of `Object.prototype` of that name. -/
inductive ReportSlot where
  | absent
  | entry (e : ReportEntry)
  | inherited
  deriving DecidableEq, Repr

/-- The lookup `report[name]` on the object `report`, created as `{}`; the map
holds the entries that the object owns. -/
def lookupReport (report : String → Option ReportEntry) (name : String) : ReportSlot :=
  match report name with
  | some e => ReportSlot.entry e
  | none => if name ∈ objectPrototypeKeys then ReportSlot.inherited else ReportSlot.absent

/-- The body of the inner `forEach` of `getItemsSoldReport` for one line:
`if (!report[item.name]) report[item.name] = { quantity: 0, total: 0 };
report[item.name].quantity += 1; report[item.name].total += item.price`.
When `report[item.name]` is an inherited member, it is truthy, no entry is
created, and the two `+=` assign `NaN` to `quantity` and `total` of that
member, which is no part of the report. -/
def reportLine (report : String → Option ReportEntry) (item : Item) :
    String → Option ReportEntry :=
  let report1 : String → Option ReportEntry :=
    match lookupReport report item.name with
    | ReportSlot.absent =>
      fun k => if k = item.name then some { quantity := 0, total := 0 } else report k
    | ReportSlot.entry _ => report
    | ReportSlot.inherited => report
  match lookupReport report1 item.name with
  | ReportSlot.absent => report1
  | ReportSlot.entry e =>
    fun k =>
      if k = item.name then some { quantity := e.quantity + 1, total := e.total + item.price }
      else report1 k
  | ReportSlot.inherited => report1

/-- `App.getItemsSoldReport`, on the sales ledger: the entries that the
returned object owns. -/
def itemsSoldReport (sales : List Sale) : String → Option ReportEntry :=
  sales.foldl (fun report sale => sale.items.foldl reportLine report) (fun _ => none)

/-- `App.getItemsSoldReport`: the entries that the returned object owns;
`lookupReport` gives what `report[name]` reads on it. -/
def getItemsSoldReport (s : State) : String → Option ReportEntry :=
  itemsSoldReport s.sales

/-- A row of the list returned by `getBeverageStockReport`. -/
structure StockRow where
  name : String
  currentStock : Int
  soldToday : Int
  totalStock : Int
  deriving DecidableEq, Repr

/-- The expression `salesReport[name]?.quantity || 0`: the `quantity` of an
inherited member is `undefined` or `NaN`, both falsy. -/
def quantityOr0 (report : String → Option ReportEntry) (name : String) : Int :=
  match lookupReport report name with
  | ReportSlot.absent => 0
  | ReportSlot.entry e => if e.quantity = 0 then 0 else e.quantity
  | ReportSlot.inherited => 0

/-- `App.getBeverageStockReport`. -/
def getBeverageStockReport (s : State) : List StockRow :=
  match s.menu.find? (fun c => c.id == "beverages") with
  | none => []
  | some bevCat =>
    let salesReport := getItemsSoldReport s
    bevCat.items.map (fun item =>
      { name := item.name,
        currentStock := item.stock,
        soldToday := quantityOr0 salesReport item.name,
        totalStock := item.stock + quantityOr0 salesReport item.name })

/-! ## Sequences of operations -/

/-- A call of one of the public operations, with its arguments and the
readings of the clock and of the confirmation dialog it makes. -/
inductive Op where
  | addToCart (item : Item)
  | removeFromCart (index : Int)
  | placeOrder (now : Nat) (timestamp : String) (tableId : Nat) (adults children : JsVal)
  | markOrderReady (orderId : Nat)
  | updateStock (itemId : Nat) (newStock : JsVal)
  | closeTable (now : Nat) (timestamp : String) (tableId : Nat)
  | closeDay (confirmed : Bool)
  deriving DecidableEq, Repr

/-- The state after one call. -/
def step (s : State) : Op → State
  | Op.addToCart item => (addToCart item s).2
  | Op.removeFromCart index => removeFromCart index s
  | Op.placeOrder now ts t a c => (placeOrder now ts t a c s).2
  | Op.markOrderReady orderId => markOrderReady orderId s
  | Op.updateStock itemId v => (updateStock itemId v s).2
  | Op.closeTable now ts t => (closeTable now ts t s).2
  | Op.closeDay confirmed => closeDay confirmed s

/-- The state after a sequence of calls. -/
def run (s : State) (ops : List Op) : State :=
  ops.foldl step s

/-! ## Definitions used to state the properties -/

/-- The ids of all items of the menu, category after category. -/
def menuIds : List Category → List Nat
  | [] => []
  | cat :: cats => cat.items.map Item.id ++ menuIds cats

/-- Item ids are unique over the whole menu. -/
def UniqueIds (menu : List Category) : Prop :=
  (menuIds menu).Nodup

instance (menu : List Category) : Decidable (UniqueIds menu) :=
  inferInstanceAs (Decidable (menuIds menu).Nodup)

/-- The menu in which every item has its stock lowered by `f` of its id, and
nothing else is changed. -/
def lowerStock (f : Nat → Int) (menu : List Category) : List Category :=
  menu.map (fun cat =>
    { cat with items := cat.items.map (fun it => { it with stock := it.stock - f it.id }) })

/-- The cart lines submitted by the successful placements of a sequence of
calls started in state `s`, in order. -/
def placedLines (s : State) : List Op → List Item
  | [] => []
  | Op.placeOrder now ts t a c :: ops =>
    (if (placeOrder now ts t a c s).1 = PlaceOutcome.sent then s.cart else [])
      ++ placedLines (placeOrder now ts t a c s).2 ops
  | op :: ops => placedLines (step s op) ops

/-- Whether the call is an `updateStock`. -/
def Op.isUpdateStock : Op → Bool
  | Op.updateStock _ _ => true
  | _ => false

/-- The call `addToCart(item)` made `n` times in a row: the returned booleans, in
order, and the state afterwards. -/
def addRepeat (item : Item) : Nat → State → List Bool × State
  | 0, s => ([], s)
  | n + 1, s =>
    let r := addToCart item s
    let rest := addRepeat item n r.2
    (r.1 :: rest.1, rest.2)

/-- Every table of the registry has a total equal to the sum of the prices of
its items. -/
def TotalsOk (s : State) : Prop :=
  ∀ i t, s.tables i = some t → t.total = (t.items.map Item.price).sum

/-- Every free table of the registry has no items, total 0 and no party. -/
def FreeOk (s : State) : Prop :=
  ∀ i t, s.tables i = some t → t.status = TableStatus.free → t = freeTable

/-- Every order of the ledger belongs to a table that is in the registry and
occupied. -/
def OrdersOk (s : State) : Prop :=
  ∀ o ∈ s.orders, ∃ tb, s.tables o.tableId = some tb ∧ tb.status = TableStatus.occupied

/-- Order `o1` is order `o` after a call: same id, table, items and timestamp,
and it is ready if `o` was ready. -/
def keptReady (o o1 : Order) : Prop :=
  o1.id = o.id ∧ o1.tableId = o.tableId ∧ o1.items = o.items ∧ o1.timestamp = o.timestamp
    ∧ (o.status = OrderStatus.ready → o1.status = OrderStatus.ready)

/-- The line items of all sales of the ledger, in order. -/
def saleLines : List Sale → List Item
  | [] => []
  | sale :: sales => sale.items ++ saleLines sales

/-- The lines of a list that carry the name `n`. -/
def linesNamed (n : String) (lines : List Item) : List Item :=
  lines.filter (fun it => it.name = n)

/-- All items of the menu, category after category. -/
def menuItems : List Category → List Item
  | [] => []
  | cat :: cats => cat.items ++ menuItems cats

/-- The condition that C15 puts on a call made in state `s`: `addToCart` is
called with an item as it is in the menu, `updateStock` with a value that is
not negative. -/
def opClaimed (s : State) : Op → Bool
  | Op.addToCart item => decide (item ∈ menuItems s.menu)
  | Op.updateStock _ v => decide (0 ≤ parseIntOr0 v)
  | _ => true

/-- Every call of the sequence started in `s` meets `opClaimed`. -/
def opsClaimed (s : State) : List Op → Bool
  | [] => true
  | op :: ops => opClaimed s op && opsClaimed (step s op) ops

/-- The condition of C15 as amended: `addToCart` is called with an item as it
is in the menu, `updateStock` with a value that is not below the number of cart
lines with that id. -/
def opCovered (s : State) : Op → Bool
  | Op.addToCart item => decide (item ∈ menuItems s.menu)
  | Op.updateStock itemId v => decide ((countInCart s.cart itemId : Int) ≤ parseIntOr0 v)
  | _ => true

/-- Every call of the sequence started in `s` meets `opCovered`. -/
def opsCovered (s : State) : List Op → Bool
  | [] => true
  | op :: ops => opCovered s op && opsCovered (step s op) ops

/-- Ids are unique and the stock of every menu item covers the cart lines with
its id. -/
def StockCovers (s : State) : Prop :=
  UniqueIds s.menu ∧ ∀ it ∈ menuItems s.menu, (countInCart s.cart it.id : Int) ≤ it.stock

/-- Item names are unique over the whole menu. -/
def UniqueNames (menu : List Category) : Prop :=
  ((menuItems menu).map Item.name).Nodup

instance (menu : List Category) : Decidable (UniqueNames menu) :=
  inferInstanceAs (Decidable ((menuItems menu).map Item.name).Nodup)

/-- The line carries the id and the name of an item of the menu. -/
def lineOfMenu (menu : List Category) (line : Item) : Prop :=
  ∃ m ∈ menuItems menu, m.id = line.id ∧ m.name = line.name

/-- The calls of a day as C19 describes it: `addToCart` (with an item of the
menu, by its id and name), `removeFromCart`, `placeOrder`, `markOrderReady`
and `closeTable`; no `updateStock` and no `closeDay`. -/
def opDay (menu : List Category) : Op → Bool
  | Op.addToCart item => (menuItems menu).any (fun m => m.id == item.id && m.name == item.name)
  | Op.removeFromCart _ => true
  | Op.placeOrder _ _ _ _ _ => true
  | Op.markOrderReady _ => true
  | Op.closeTable _ _ _ => true
  | Op.updateStock _ _ => false
  | Op.closeDay _ => false

/-- The items of the category found by
`categories.find(c => c.id === 'beverages')`, none if there is no such
category. -/
def bevItems (menu : List Category) : List Item :=
  match menu.find? (fun c => c.id == "beverages") with
  | none => []
  | some bevCat => bevCat.items

/-- The lines of all orders of a list, in order. -/
def orderLines : List Order → List Item
  | [] => []
  | o :: os => o.items ++ orderLines os

/-- The items on the tab of table `t`, none if the table is absent. -/
def tableItems (s : State) (t : Nat) : List Item :=
  match s.tables t with
  | none => []
  | some tb => tb.items

/-- The bookkeeping of a day: a free table is empty, the tab of every table
is made of the lines of its orders in the ledger, the lines placed so far
(`placed`) are, name by name, as many as the lines sold plus the lines of the
orders in the ledger, and the lines of the cart and the lines placed are lines
of the menu. -/
def DayInv (menu : List Category) (s : State) (placed : List Item) : Prop :=
  FreeOk s
    ∧ (∀ t, tableItems s t = orderLines (s.orders.filter (fun o => o.tableId == t)))
    ∧ (∀ n, (linesNamed n placed).length
        = (linesNamed n (saleLines s.sales)).length
          + (linesNamed n (orderLines s.orders)).length)
    ∧ (∀ l ∈ s.cart, lineOfMenu menu l)
    ∧ (∀ l ∈ placed, lineOfMenu menu l)

/-! ## Example data -/

/-- The item A of the worked example of the specification, with stock 5. -/
def exA : Item := { id := 1, name := "A", price := 500, stock := 5 }

/-- A second item, in another category. -/
def exB : Item := { id := 2, name := "B", price := 300, stock := 1 }

/-- A menu of two categories with unique ids. -/
def exMenu : List Category :=
  [{ id := "beverages", items := [exA] }, { id := "food", items := [exB] }]

/-- The initial state on `exMenu` with ten tables. -/
def exInit : State := initState exMenu 10

/-- A sequence of calls: two lines ordered at table 3, then one more. -/
def exOps : List Op :=
  [Op.addToCart exA, Op.addToCart exA,
   Op.placeOrder 7 "t7" 3 (JsVal.str "2") (JsVal.str "1"),
   Op.addToCart { exA with stock := 3 },
   Op.placeOrder 8 "t8" 3 (JsVal.str "2") JsVal.undefined]

/-- Table 3 after `exOps`. -/
def exTable3 : Table :=
  { items := [exA, exA, { exA with stock := 3 }], total := 1500,
    status := TableStatus.occupied, adults := 2, children := 0 }

/-- A sequence of calls: one line ordered at table 11, then the day is closed. -/
def exOps11 : List Op :=
  [Op.addToCart exA, Op.placeOrder 7 "t7" 11 (JsVal.str "2") (JsVal.str "1"), Op.closeDay true]

/-- A menu in which the id 1 occurs three times: twice in the first category
and once in the second. -/
def exDupMenu : List Category :=
  [{ id := "beverages", items := [exA, { exA with name := "A2" }] },
   { id := "food", items := [{ exA with name := "A3" }, exB] }]

/-- A sequence of calls: two lines of item 1 are put in the cart, the stock of
item 1 is set to 1, and the cart is ordered. -/
def exOps15 : List Op :=
  [Op.addToCart exA, Op.addToCart exA, Op.updateStock 1 (JsVal.str "1"),
   Op.placeOrder 7 "t7" 3 (JsVal.str "2") (JsVal.str "1")]

/-- A sequence of calls of a day: one line of item 1 is ordered at table 3,
which stays open. -/
def exOps19 : List Op :=
  [Op.addToCart exA, Op.placeOrder 7 "t7" 3 (JsVal.str "2") (JsVal.str "1")]

/-- A beverage whose name is the name of a member of `Object.prototype`. -/
def exCtor : Item := { id := 3, name := "constructor", price := 500, stock := 5 }

/-- A menu with that beverage only. -/
def exCtorMenu : List Category := [{ id := "beverages", items := [exCtor] }]

/-- A sequence of calls: one line of that beverage is ordered at table 3 and
the table is closed. -/
def exOpsCtor : List Op :=
  [Op.addToCart exCtor, Op.placeOrder 7 "t7" 3 (JsVal.str "2") (JsVal.str "1"),
   Op.closeTable 8 "t8" 3]

/-! ## Auxiliary lemmas -/

theorem foldl_price (xs : List Item) (a : Int) :
    xs.foldl (fun sum item => sum + item.price) a = a + (xs.map Item.price).sum := by
  induction xs generalizing a with
  | nil => simp
  | cons x xs ih => simp [List.foldl_cons, ih, add_assoc]

theorem sumPrices_eq (xs : List Item) : sumPrices xs = (xs.map Item.price).sum := by
  simp [sumPrices, foldl_price]

theorem setTable_same (tables : Nat → Option Table) (i : Nat) (t : Table) :
    setTable tables i t i = some t := by
  simp [setTable]

theorem setTable_other (tables : Nat → Option Table) (i k : Nat) (t : Table) (h : k ≠ i) :
    setTable tables i t k = tables k := by
  simp [setTable, h]

theorem initLoop_spec_aux (n : Nat) (tables : Nat → Option Table) (k : Nat) (h : n < k) :
    initLoop n tables k = tables k := by
  induction n with
  | zero => rfl
  | succ n ih =>
    have hk : k ≠ n + 1 := by omega
    simp only [initLoop]
    cases initLoop n tables (n + 1) with
    | none => simp only [setTable, if_neg hk]; exact ih (by omega)
    | some t => exact ih (by omega)

theorem initLoop_spec (n : Nat) (tables : Nat → Option Table) (k : Nat) :
    initLoop n tables k =
      if 1 ≤ k ∧ k ≤ n ∧ tables k = none then some freeTable else tables k := by
  induction n with
  | zero =>
    have h0 : ¬ (1 ≤ k ∧ k ≤ 0 ∧ tables k = none) := by omega
    rw [if_neg h0]
    rfl
  | succ n ih =>
    have hlast : initLoop n tables (n + 1) = tables (n + 1) := by
      have h := initLoop_spec_aux n tables (n + 1) (by omega)
      exact h
    by_cases hk : k = n + 1
    · subst hk
      cases htk : tables (n + 1) with
      | none =>
        have hc : 1 ≤ n + 1 ∧ n + 1 ≤ n + 1 ∧ (none : Option Table) = none :=
          ⟨by omega, le_refl _, rfl⟩
        simp only [initLoop, hlast, htk, setTable_same]
        simp
      | some t =>
        simp only [initLoop, hlast, htk]
        simp
    · have hstep : initLoop (n + 1) tables k = initLoop n tables k := by
        simp only [initLoop]
        cases initLoop n tables (n + 1) with
        | none => simp [setTable, hk]
        | some t => rfl
      rw [hstep, ih]
      by_cases hc : 1 ≤ k ∧ k ≤ n ∧ tables k = none
      · have hc2 : 1 ≤ k ∧ k ≤ n + 1 ∧ tables k = none := ⟨hc.1, by omega, hc.2.2⟩
        rw [if_pos hc, if_pos hc2]
      · have hc2 : ¬ (1 ≤ k ∧ k ≤ n + 1 ∧ tables k = none) := by
          intro h
          exact hc ⟨h.1, by omega, h.2.2⟩
        rw [if_neg hc, if_neg hc2]

theorem resetLoop_spec (n : Nat) (tables : Nat → Option Table) (k : Nat) :
    resetLoop n tables k = if 1 ≤ k ∧ k ≤ n then some freeTable else tables k := by
  induction n with
  | zero =>
    have h0 : ¬ (1 ≤ k ∧ k ≤ 0) := by omega
    rw [if_neg h0]
    rfl
  | succ n ih =>
    by_cases hk : k = n + 1
    · subst hk
      have hc : 1 ≤ n + 1 ∧ n + 1 ≤ n + 1 := ⟨by omega, le_refl _⟩
      rw [if_pos hc]
      simp [resetLoop, setTable]
    · have hstep : resetLoop (n + 1) tables k = resetLoop n tables k := by
        simp [resetLoop, setTable, hk]
      rw [hstep, ih]
      by_cases hc : 1 ≤ k ∧ k ≤ n
      · have hc2 : 1 ≤ k ∧ k ≤ n + 1 := ⟨hc.1, by omega⟩
        rw [if_pos hc, if_pos hc2]
      · have hc2 : ¬ (1 ≤ k ∧ k ≤ n + 1) := by
          intro h
          exact hc ⟨h.1, by omega⟩
        rw [if_neg hc, if_neg hc2]

theorem run_invariant (P : State → Prop) (hstep : ∀ s op, P s → P (step s op)) :
    ∀ (ops : List Op) (s : State), P s → P (run s ops) := by
  intro ops
  induction ops with
  | nil => intro s h; simpa [run] using h
  | cons op ops ih =>
    intro s h
    have := ih (step s op) (hstep s op h)
    simpa [run] using this

theorem totalsOk_initState (menu : List Category) (n : Nat) : TotalsOk (initState menu n) := by
  intro i t h
  simp only [initState, initTables, initLoop_spec] at h
  split at h
  · cases h
    rfl
  · cases h

theorem totalsOk_setTable (s : State) (i : Nat) (t : Table) (h : TotalsOk s)
    (ht : t.total = (t.items.map Item.price).sum) (k : Nat) (u : Table)
    (hu : setTable s.tables i t k = some u) : u.total = (u.items.map Item.price).sum := by
  by_cases hk : k = i
  · subst hk
    rw [setTable_same] at hu
    cases hu
    exact ht
  · rw [setTable_other _ _ _ _ hk] at hu
    exact h k u hu

theorem totalsOk_placeOrder (now : Nat) (ts : String) (t : Nat) (a c : JsVal) (s : State)
    (h : TotalsOk s) : TotalsOk (placeOrder now ts t a c s).2 := by
  unfold placeOrder
  by_cases h1 : s.cart.length = 0
  · rw [if_pos h1]; exact h
  · rw [if_neg h1]
    by_cases h2 : parseIntOr0 a + parseIntOr0 c ≤ 0
    · simp only [if_pos h2]; exact h
    · simp only [if_neg h2]
      intro k u hu
      refine totalsOk_setTable s t _ h ?_ k u hu
      simp only [sumPrices_eq, List.map_append, List.sum_append]
      cases hst : s.tables t with
      | none => simp [occupiedTable]
      | some tb =>
        by_cases hf : tb.status = TableStatus.free
        · simp [hf, occupiedTable]
        · simp [hf, h t tb hst]

theorem totalsOk_closeTable (now : Nat) (ts : String) (t : Nat) (s : State)
    (h : TotalsOk s) : TotalsOk (closeTable now ts t s).2 := by
  unfold closeTable
  cases hst : s.tables t with
  | none => exact h
  | some tb =>
    by_cases hf : tb.status = TableStatus.free
    · simp only [if_pos hf]; exact h
    · simp only [if_neg hf]
      intro k u hu
      exact totalsOk_setTable s t freeTable h rfl k u hu

theorem totalsOk_closeDay (confirmed : Bool) (s : State) (h : TotalsOk s) :
    TotalsOk (closeDay confirmed s) := by
  unfold closeDay
  cases confirmed with
  | false => exact h
  | true =>
    intro k u hu
    simp only [if_true, resetLoop_spec] at hu
    split at hu
    · cases hu
      rfl
    · exact h k u hu

theorem totalsOk_step (s : State) (op : Op) (h : TotalsOk s) : TotalsOk (step s op) := by
  cases op with
  | addToCart item =>
    intro k u hu
    have : (addToCart item s).2.tables = s.tables := by
      unfold addToCart
      split
      · rfl
      · split <;> rfl
    simp only [step, this] at hu
    exact h k u hu
  | removeFromCart index => exact h
  | placeOrder now ts t a c => exact totalsOk_placeOrder now ts t a c s h
  | markOrderReady orderId => exact h
  | updateStock itemId v => exact h
  | closeTable now ts t => exact totalsOk_closeTable now ts t s h
  | closeDay confirmed => exact totalsOk_closeDay confirmed s h

theorem decrementFirst_of_not_mem (id : Nat) (items : List Item)
    (h : id ∉ items.map Item.id) : decrementFirst id items = items := by
  induction items with
  | nil => rfl
  | cons x xs ih =>
    simp only [List.map_cons, List.mem_cons, not_or] at h
    have hx : ¬ x.id = id := fun e => h.1 e.symm
    simp only [decrementFirst, if_neg hx, ih h.2]

theorem map_lower_of_not_mem (id : Nat) (items : List Item) (h : id ∉ items.map Item.id) :
    items.map (fun it => { it with stock := it.stock - (if it.id = id then (1 : Int) else 0) })
      = items := by
  induction items with
  | nil => rfl
  | cons x xs ih =>
    simp only [List.map_cons, List.mem_cons, not_or] at h
    have hx : ¬ x.id = id := fun e => h.1 e.symm
    simp only [List.map_cons, if_neg hx, ih h.2, sub_zero]

theorem decrementFirst_eq_map (id : Nat) (items : List Item)
    (h : (items.map Item.id).Nodup) :
    decrementFirst id items =
      items.map (fun it => { it with stock := it.stock - (if it.id = id then (1 : Int) else 0) }) := by
  induction items with
  | nil => rfl
  | cons x xs ih =>
    simp only [List.map_cons, List.nodup_cons] at h
    by_cases hx : x.id = id
    · have hn : id ∉ xs.map Item.id := hx ▸ h.1
      simp only [decrementFirst, if_pos hx, List.map_cons, map_lower_of_not_mem id xs hn]
    · simp only [decrementFirst, if_neg hx, List.map_cons, ih h.2, sub_zero]

theorem menuIds_lowerStock (f : Nat → Int) (menu : List Category) :
    menuIds (lowerStock f menu) = menuIds menu := by
  induction menu with
  | nil => rfl
  | cons cat cats ih =>
    have ih2 : menuIds (List.map (fun cat : Category =>
        { cat with items := cat.items.map (fun it => { it with stock := it.stock - f it.id }) })
        cats) = menuIds cats := ih
    simp [lowerStock, menuIds, ih2, Function.comp_def]

theorem nodup_of_uniqueIds (menu : List Category) (h : UniqueIds menu) :
    ∀ cat ∈ menu, (cat.items.map Item.id).Nodup := by
  induction menu with
  | nil => intro cat hc; cases hc
  | cons c cs ih =>
    intro cat hc
    have h2 : (c.items.map Item.id ++ menuIds cs).Nodup := h
    rw [List.nodup_append] at h2
    rcases List.mem_cons.mp hc with e | e
    · subst e; exact h2.1
    · exact ih h2.2.1 cat e

theorem discountLine_eq_lowerStock (cartItem : Item) (menu : List Category)
    (h : ∀ cat ∈ menu, (cat.items.map Item.id).Nodup) :
    discountLine cartItem menu
      = lowerStock (fun j => if j = cartItem.id then (1 : Int) else 0) menu := by
  unfold discountLine lowerStock
  apply List.map_congr_left
  intro cat hc
  rw [decrementFirst_eq_map _ _ (h cat hc)]

theorem lowerStock_lowerStock (f g : Nat → Int) (menu : List Category) :
    lowerStock f (lowerStock g menu) = lowerStock (fun j => g j + f j) menu := by
  unfold lowerStock
  simp [List.map_map, Function.comp_def, sub_sub]

theorem lowerStock_zero (menu : List Category) : lowerStock (fun _ => 0) menu = menu := by
  unfold lowerStock
  simp

theorem countInCart_cons (x : Item) (xs : List Item) (j : Nat) :
    countInCart (x :: xs) j = (if j = x.id then 1 else 0) + countInCart xs j := by
  unfold countInCart
  by_cases h : x.id = j
  · simp [List.filter_cons, h, Nat.add_comm]
  · have h2 : ¬ j = x.id := fun e => h e.symm
    simp [List.filter_cons, h, h2]

theorem countInCart_append (xs ys : List Item) (j : Nat) :
    countInCart (xs ++ ys) j = countInCart xs j + countInCart ys j := by
  simp [countInCart, List.filter_append]

theorem discountStock_eq_lowerStock (cart : List Item) (menu : List Category)
    (h : UniqueIds menu) :
    discountStock cart menu = lowerStock (fun j => (countInCart cart j : Int)) menu := by
  induction cart generalizing menu with
  | nil =>
    have : (fun j => ((countInCart [] j : Nat) : Int)) = fun _ => (0 : Int) := by
      funext j; simp [countInCart]
    rw [this, lowerStock_zero]
    rfl
  | cons x xs ih =>
    have hstep : discountStock (x :: xs) menu = discountStock xs (discountLine x menu) := rfl
    rw [hstep, discountLine_eq_lowerStock x menu (nodup_of_uniqueIds menu h)]
    have hu : UniqueIds (lowerStock (fun j => if j = x.id then (1 : Int) else 0) menu) := by
      unfold UniqueIds
      rw [menuIds_lowerStock]
      exact h
    rw [ih _ hu, lowerStock_lowerStock]
    congr 1
    funext j
    rw [countInCart_cons]
    push_cast
    split <;> simp

theorem placeOrder_sent_iff (now : Nat) (ts : String) (t : Nat) (a c : JsVal) (s : State) :
    (placeOrder now ts t a c s).1 = PlaceOutcome.sent
      ↔ ¬ s.cart.length = 0 ∧ ¬ parseIntOr0 a + parseIntOr0 c ≤ 0 := by
  unfold placeOrder
  by_cases h1 : s.cart.length = 0
  · simp [h1]
  · by_cases h2 : parseIntOr0 a + parseIntOr0 c ≤ 0
    · simp [h1, h2]
    · simp [h1, h2]

theorem placeOrder_menu (now : Nat) (ts : String) (t : Nat) (a c : JsVal) (s : State) :
    (placeOrder now ts t a c s).2.menu
      = if (placeOrder now ts t a c s).1 = PlaceOutcome.sent then discountStock s.cart s.menu
        else s.menu := by
  unfold placeOrder
  by_cases h1 : s.cart.length = 0
  · simp [h1]
  · by_cases h2 : parseIntOr0 a + parseIntOr0 c ≤ 0
    · simp [h1, h2]
    · simp [h1, h2]

theorem placedLines_cons (s : State) (op : Op) (ops : List Op) :
    placedLines s (op :: ops) = placedLines s [op] ++ placedLines (step s op) ops := by
  cases op <;> simp [placedLines, step]

theorem step_menu (s : State) (op : Op) (h : UniqueIds s.menu)
    (hop : op.isUpdateStock = false) :
    (step s op).menu = lowerStock (fun j => (countInCart (placedLines s [op]) j : Int)) s.menu := by
  have hz : lowerStock (fun j => ((countInCart [] j : Nat) : Int)) s.menu = s.menu := by
    have : (fun j => ((countInCart [] j : Nat) : Int)) = fun _ => (0 : Int) := by
      funext j; simp [countInCart]
    rw [this, lowerStock_zero]
  cases op with
  | addToCart item =>
    have : (addToCart item s).2.menu = s.menu := by
      unfold addToCart
      split
      · rfl
      · split <;> rfl
    simp only [step, placedLines, this, hz]
  | removeFromCart index => simp only [step, placedLines, removeFromCart, hz]
  | placeOrder now ts t a c =>
    simp only [step, placedLines, List.append_nil]
    rw [placeOrder_menu]
    by_cases hs : (placeOrder now ts t a c s).1 = PlaceOutcome.sent
    · rw [if_pos hs, if_pos hs, discountStock_eq_lowerStock _ _ h]
    · rw [if_neg hs, if_neg hs, hz]
  | markOrderReady orderId => simp only [step, placedLines, markOrderReady, hz]
  | updateStock itemId v => simp [Op.isUpdateStock] at hop
  | closeTable now ts t =>
    have : (closeTable now ts t s).2.menu = s.menu := by
      unfold closeTable
      split
      · rfl
      · split <;> rfl
    simp only [step, placedLines, this, hz]
  | closeDay confirmed =>
    have : (closeDay confirmed s).menu = s.menu := by
      unfold closeDay
      split <;> rfl
    simp only [step, placedLines, this, hz]

theorem run_menu (ops : List Op) :
    ∀ (s : State), UniqueIds s.menu → (∀ op ∈ ops, Op.isUpdateStock op = false) →
      (run s ops).menu = lowerStock (fun j => (countInCart (placedLines s ops) j : Int)) s.menu := by
  induction ops with
  | nil =>
    intro s _ _
    have : (fun j => ((countInCart (placedLines s []) j : Nat) : Int)) = fun _ => (0 : Int) := by
      funext j; simp [countInCart, placedLines]
    rw [this, lowerStock_zero]
    rfl
  | cons op ops ih =>
    intro s h hops
    have hop : Op.isUpdateStock op = false := hops op (List.mem_cons_self _ _)
    have hm := step_menu s op h hop
    have hu : UniqueIds (step s op).menu := by
      rw [hm]
      unfold UniqueIds
      rw [menuIds_lowerStock]
      exact h
    have hrun : run s (op :: ops) = run (step s op) ops := rfl
    rw [hrun, ih (step s op) hu (fun o ho => hops o (List.mem_cons_of_mem _ ho)), hm,
      lowerStock_lowerStock]
    congr 1
    funext j
    rw [placedLines_cons s op ops, countInCart_append]
    push_cast
    rfl

theorem addToCart_accept (item : Item) (s : State) (S : Nat) (hS : item.stock = (S : Int))
    (h : countInCart s.cart item.id < S) :
    addToCart item s = (true, { s with cart := s.cart ++ [item] }) := by
  unfold addToCart
  have h1 : ¬ item.stock ≤ 0 := by omega
  have h2 : ¬ ((countInCart s.cart item.id : Int) ≥ item.stock) := by omega
  rw [if_neg h1, if_neg h2]

theorem addToCart_decline (item : Item) (s : State) (S : Nat) (hS : item.stock = (S : Int))
    (h : S ≤ countInCart s.cart item.id) :
    addToCart item s = (false, s) := by
  unfold addToCart
  by_cases h1 : item.stock ≤ 0
  · rw [if_pos h1]
  · have h2 : (countInCart s.cart item.id : Int) ≥ item.stock := by omega
    rw [if_neg h1, if_pos h2]

theorem countInCart_snoc_self (cart : List Item) (item : Item) :
    countInCart (cart ++ [item]) item.id = countInCart cart item.id + 1 := by
  rw [countInCart_append]
  simp [countInCart]

theorem addRepeat_spec (item : Item) (S : Nat) (hS : item.stock = (S : Int)) (n : Nat) :
    ∀ s : State,
      addRepeat item n s =
        (List.replicate (min n (S - countInCart s.cart item.id)) true
            ++ List.replicate (n - min n (S - countInCart s.cart item.id)) false,
          { s with cart := s.cart
              ++ List.replicate (min n (S - countInCart s.cart item.id)) item }) := by
  induction n with
  | zero =>
    intro s
    simp [addRepeat]
  | succ n ih =>
    intro s
    by_cases hc : countInCart s.cart item.id < S
    · have hmin : min (n + 1) (S - countInCart s.cart item.id)
          = min n (S - (countInCart s.cart item.id + 1)) + 1 := by omega
      have hrest : n + 1 - (min n (S - (countInCart s.cart item.id + 1)) + 1)
          = n - min n (S - (countInCart s.cart item.id + 1)) := by omega
      simp only [addRepeat, addToCart_accept item s S hS hc, ih, countInCart_snoc_self, hmin,
        hrest, List.replicate_succ, List.cons_append, List.append_assoc, List.singleton_append,
        List.nil_append]
    · have hmin : min (n + 1) (S - countInCart s.cart item.id) = 0 := by omega
      have hmin2 : min n (S - countInCart s.cart item.id) = 0 := by omega
      simp only [addRepeat, addToCart_decline item s S hS (by omega), ih, hmin, hmin2,
        List.replicate_zero, List.nil_append, Nat.sub_zero, List.replicate_succ]

theorem countInCart_eq_count (cart : List Item) (id : Nat) :
    countInCart cart id = (cart.map Item.id).count id := by
  induction cart with
  | nil => rfl
  | cons x xs ih =>
    rw [countInCart_cons, ih, List.map_cons, List.count_cons]
    by_cases h : x.id = id
    · have h2 : id = x.id := h.symm
      simp [h, Nat.add_comm]
    · have h2 : ¬ id = x.id := fun e => h e.symm
      simp [h, h2]

theorem parseIntOr0_eq (v : JsVal) : parseIntOr0 v = (parseInt v).getD 0 := by
  unfold parseIntOr0
  cases parseInt v with
  | none => rfl
  | some n =>
    by_cases h : n = 0
    · simp [h]
    · simp [h]

theorem placeOrder_sent_eq (now : Nat) (ts : String) (t : Nat) (a c : JsVal) (s : State)
    (h : (placeOrder now ts t a c s).1 = PlaceOutcome.sent) :
    placeOrder now ts t a c s =
      (PlaceOutcome.sent,
        { s with
          menu := discountStock s.cart s.menu,
          orders := s.orders ++ [{ id := now, tableId := t, items := s.cart,
                                   status := OrderStatus.pending, timestamp := ts }],
          tables := setTable s.tables t
            { items := (match s.tables t with
                        | none => occupiedTable
                        | some tb => if tb.status = TableStatus.free then occupiedTable
                                     else tb).items ++ s.cart,
              total := (match s.tables t with
                        | none => occupiedTable
                        | some tb => if tb.status = TableStatus.free then occupiedTable
                                     else tb).total + sumPrices s.cart,
              status := TableStatus.occupied,
              adults := parseIntOr0 a,
              children := parseIntOr0 c },
          cart := [] }) := by
  have hs := (placeOrder_sent_iff now ts t a c s).mp h
  unfold placeOrder
  rw [if_neg hs.1]
  simp only [if_neg hs.2]

theorem placeOrder_declined_eq (now : Nat) (ts : String) (t : Nat) (a c : JsVal) (s : State)
    (h : (placeOrder now ts t a c s).1 ≠ PlaceOutcome.sent) :
    (placeOrder now ts t a c s).2 = s := by
  unfold placeOrder at h ⊢
  by_cases h1 : s.cart.length = 0
  · rw [if_pos h1]
  · rw [if_neg h1] at h ⊢
    by_cases h2 : parseIntOr0 a + parseIntOr0 c ≤ 0
    · simp only [if_pos h2]
    · simp only [if_neg h2] at h
      exact absurd rfl h

theorem addToCart_snd (item : Item) (s : State) :
    (addToCart item s).2 = { s with cart := (addToCart item s).2.cart } := by
  unfold addToCart
  split
  · rfl
  · split <;> rfl

theorem closeTable_cases (now : Nat) (ts : String) (t : Nat) (s : State) :
    closeTable now ts t s = (false, s)
      ∨ ∃ tb, s.tables t = some tb ∧ tb.status ≠ TableStatus.free
          ∧ closeTable now ts t s =
            (true,
              { s with
                sales := s.sales ++ [{ id := now, tableId := t, items := tb.items,
                                       total := tb.total,
                                       adults := if tb.adults = 0 then 0 else tb.adults,
                                       children := if tb.children = 0 then 0 else tb.children,
                                       timestamp := ts }],
                tables := setTable s.tables t freeTable,
                orders := s.orders.filter (fun o => o.tableId != t) }) := by
  unfold closeTable
  cases hst : s.tables t with
  | none => exact Or.inl rfl
  | some tb =>
    by_cases hf : tb.status = TableStatus.free
    · left
      simp only [if_pos hf]
    · right
      exact ⟨tb, rfl, hf, by simp only [if_neg hf]⟩

theorem placeOrder_cases (now : Nat) (ts : String) (t : Nat) (a c : JsVal) (s : State) :
    (placeOrder now ts t a c s).2 = s ∨ (placeOrder now ts t a c s).1 = PlaceOutcome.sent := by
  by_cases h : (placeOrder now ts t a c s).1 = PlaceOutcome.sent
  · exact Or.inr h
  · exact Or.inl (placeOrder_declined_eq now ts t a c s h)

theorem freeOk_initState (menu : List Category) (n : Nat) : FreeOk (initState menu n) := by
  intro i t h _
  simp only [initState, initTables, initLoop_spec] at h
  split at h
  · cases h
    rfl
  · cases h

theorem freeOk_step (s : State) (op : Op) (h : FreeOk s) : FreeOk (step s op) := by
  cases op with
  | addToCart item =>
    intro k u hu
    simp only [step] at hu
    rw [addToCart_snd] at hu
    exact h k u hu
  | removeFromCart index => exact h
  | placeOrder now ts t a c =>
    rcases placeOrder_cases now ts t a c s with hd | hs
    · simp only [step, hd]
      exact h
    · intro k u hu hfree
      simp only [step, placeOrder_sent_eq now ts t a c s hs] at hu
      by_cases hk : k = t
      · subst hk
        rw [setTable_same] at hu
        cases hu
        cases hfree
      · rw [setTable_other _ _ _ _ hk] at hu
        exact h k u hu hfree
  | markOrderReady orderId => exact h
  | updateStock itemId v => exact h
  | closeTable now ts t =>
    rcases closeTable_cases now ts t s with hd | ⟨tb, _, _, hc⟩
    · simp only [step, hd]
      exact h
    · intro k u hu hfree
      simp only [step, hc] at hu
      by_cases hk : k = t
      · subst hk
        rw [setTable_same] at hu
        cases hu
        rfl
      · rw [setTable_other _ _ _ _ hk] at hu
        exact h k u hu hfree
  | closeDay confirmed =>
    cases confirmed with
    | false => exact h
    | true =>
      intro k u hu hfree
      simp only [step, closeDay, if_true, resetLoop_spec] at hu
      split at hu
      · cases hu
        rfl
      · exact h k u hu hfree

theorem markFirstReady_mem (orderId : Nat) (os : List Order) (o : Order)
    (h : o ∈ markFirstReady orderId os) : ∃ o0 ∈ os, o0.tableId = o.tableId := by
  induction os with
  | nil => cases h
  | cons x xs ih =>
    simp only [markFirstReady] at h
    by_cases hx : x.id = orderId
    · rw [if_pos hx] at h
      rcases List.mem_cons.mp h with e | e
      · exact ⟨x, List.mem_cons_self _ _, by rw [e]⟩
      · exact ⟨o, List.mem_cons_of_mem _ e, rfl⟩
    · rw [if_neg hx] at h
      rcases List.mem_cons.mp h with e | e
      · exact ⟨x, List.mem_cons_self _ _, by rw [e]⟩
      · obtain ⟨o0, ho0, he⟩ := ih e
        exact ⟨o0, List.mem_cons_of_mem _ ho0, he⟩

theorem ordersOk_initState (menu : List Category) (n : Nat) : OrdersOk (initState menu n) := by
  intro o ho
  cases ho

theorem ordersOk_step (s : State) (op : Op) (h : OrdersOk s) : OrdersOk (step s op) := by
  cases op with
  | addToCart item =>
    intro o ho
    simp only [step] at ho ⊢
    rw [addToCart_snd] at ho ⊢
    exact h o ho
  | removeFromCart index => exact h
  | placeOrder now ts t a c =>
    rcases placeOrder_cases now ts t a c s with hd | hs
    · simp only [step, hd]
      exact h
    · intro o ho
      simp only [step, placeOrder_sent_eq now ts t a c s hs] at ho ⊢
      by_cases hk : o.tableId = t
      · rw [hk, setTable_same]
        exact ⟨_, rfl, rfl⟩
      · rw [setTable_other _ _ _ _ hk]
        rcases List.mem_append.mp ho with e | e
        · exact h o e
        · rw [List.mem_singleton] at e
          exact absurd (by rw [e]) hk
  | markOrderReady orderId =>
    intro o ho
    obtain ⟨o0, ho0, he⟩ := markFirstReady_mem orderId s.orders o ho
    obtain ⟨tb, htb, hocc⟩ := h o0 ho0
    exact ⟨tb, by rw [← he]; exact htb, hocc⟩
  | updateStock itemId v => exact h
  | closeTable now ts t =>
    rcases closeTable_cases now ts t s with hd | ⟨tb, _, _, hc⟩
    · simp only [step, hd]
      exact h
    · intro o ho
      simp only [step, hc] at ho ⊢
      rw [List.mem_filter] at ho
      have hk : o.tableId ≠ t := by
        intro e
        simp [e] at ho
      rw [setTable_other _ _ _ _ hk]
      exact h o ho.1
  | closeDay confirmed =>
    cases confirmed with
    | false => exact h
    | true =>
      intro o ho
      cases ho

theorem setStockFirst_of_no_match (itemId : Nat) (v : Int) (items : List Item)
    (h : ∀ it ∈ items, it.id ≠ itemId) : setStockFirst itemId v items = items := by
  induction items with
  | nil => rfl
  | cons x xs ih =>
    have hx : ¬ x.id = itemId := h x (List.mem_cons_self _ _)
    simp only [setStockFirst, if_neg hx, ih (fun it hit => h it (List.mem_cons_of_mem _ hit))]

theorem setStockFirst_split (itemId : Nat) (v : Int) (pre post : List Item) (it : Item)
    (hpre : ∀ p ∈ pre, p.id ≠ itemId) (hit : it.id = itemId) :
    setStockFirst itemId v (pre ++ it :: post) = pre ++ { it with stock := v } :: post := by
  induction pre with
  | nil => simp only [List.nil_append, setStockFirst, if_pos hit]
  | cons x xs ih =>
    have hx : ¬ x.id = itemId := hpre x (List.mem_cons_self _ _)
    rw [List.cons_append, List.cons_append]
    simp only [setStockFirst, if_neg hx]
    rw [ih (fun p hp => hpre p (List.mem_cons_of_mem _ hp))]

theorem decrementFirst_of_no_match (id : Nat) (items : List Item)
    (h : ∀ it ∈ items, it.id ≠ id) : decrementFirst id items = items := by
  induction items with
  | nil => rfl
  | cons x xs ih =>
    have hx : ¬ x.id = id := h x (List.mem_cons_self _ _)
    simp only [decrementFirst, if_neg hx, ih (fun it hit => h it (List.mem_cons_of_mem _ hit))]

theorem decrementFirst_split (id : Nat) (pre post : List Item) (it : Item)
    (hpre : ∀ p ∈ pre, p.id ≠ id) (hit : it.id = id) :
    decrementFirst id (pre ++ it :: post) = pre ++ { it with stock := it.stock - 1 } :: post := by
  induction pre with
  | nil => simp only [List.nil_append, decrementFirst, if_pos hit]
  | cons x xs ih =>
    have hx : ¬ x.id = id := hpre x (List.mem_cons_self _ _)
    rw [List.cons_append, List.cons_append]
    simp only [decrementFirst, if_neg hx]
    rw [ih (fun p hp => hpre p (List.mem_cons_of_mem _ hp))]

theorem splice1_eq (index : Int) (xs : List Item) :
    splice1 index xs
      = xs.eraseIdx (if index < 0 then max ((xs.length : Int) + index) 0
                     else min index (xs.length : Int)).toNat := rfl

theorem markFirstReady_of_no_match (orderId : Nat) (os : List Order)
    (h : ∀ o ∈ os, o.id ≠ orderId) : markFirstReady orderId os = os := by
  induction os with
  | nil => rfl
  | cons x xs ih =>
    have hx : ¬ x.id = orderId := h x (List.mem_cons_self _ _)
    simp only [markFirstReady, if_neg hx, ih (fun o ho => h o (List.mem_cons_of_mem _ ho))]

theorem markFirstReady_split (orderId : Nat) (pre post : List Order) (o : Order)
    (hpre : ∀ p ∈ pre, p.id ≠ orderId) (ho : o.id = orderId) :
    markFirstReady orderId (pre ++ o :: post)
      = pre ++ { o with status := OrderStatus.ready } :: post := by
  induction pre with
  | nil => simp only [List.nil_append, markFirstReady, if_pos ho]
  | cons x xs ih =>
    have hx : ¬ x.id = orderId := hpre x (List.mem_cons_self _ _)
    rw [List.cons_append, List.cons_append]
    simp only [markFirstReady, if_neg hx]
    rw [ih (fun p hp => hpre p (List.mem_cons_of_mem _ hp))]

theorem markFirstReady_idem (orderId : Nat) (os : List Order) :
    markFirstReady orderId (markFirstReady orderId os) = markFirstReady orderId os := by
  induction os with
  | nil => rfl
  | cons x xs ih =>
    by_cases hx : x.id = orderId
    · simp only [markFirstReady, if_pos hx]
    · simp only [markFirstReady, if_neg hx, ih]

theorem keptReady_refl (os : List Order) : List.Forall₂ keptReady os os := by
  induction os with
  | nil => exact List.Forall₂.nil
  | cons x xs ih => exact List.Forall₂.cons ⟨rfl, rfl, rfl, rfl, fun h => h⟩ ih

theorem keptReady_markFirstReady (orderId : Nat) (os : List Order) :
    List.Forall₂ keptReady os (markFirstReady orderId os) := by
  induction os with
  | nil => exact List.Forall₂.nil
  | cons x xs ih =>
    by_cases hx : x.id = orderId
    · simp only [markFirstReady, if_pos hx]
      exact List.Forall₂.cons ⟨rfl, rfl, rfl, rfl, fun _ => rfl⟩ (keptReady_refl xs)
    · simp only [markFirstReady, if_neg hx]
      exact List.Forall₂.cons ⟨rfl, rfl, rfl, rfl, fun h => h⟩ ih

theorem reportLine_of_entry (report : String → Option ReportEntry) (item : Item)
    (e : ReportEntry) (h : report item.name = some e) :
    reportLine report item
      = fun k => if k = item.name then
          some { quantity := e.quantity + 1, total := e.total + item.price }
        else report k := by
  have hl : lookupReport report item.name = ReportSlot.entry e := by
    simp only [lookupReport, h]
  unfold reportLine
  simp only [hl]

theorem reportLine_of_absent (report : String → Option ReportEntry) (item : Item)
    (h : report item.name = none) (hk : item.name ∉ objectPrototypeKeys) :
    reportLine report item
      = fun k => if k = item.name then some { quantity := 0 + 1, total := 0 + item.price }
        else report k := by
  have hl : lookupReport report item.name = ReportSlot.absent := by
    simp only [lookupReport, h, if_neg hk]
  have hl1 : lookupReport
      (fun k => if k = item.name then some { quantity := 0, total := 0 } else report k)
      item.name = ReportSlot.entry { quantity := 0, total := 0 } := by
    simp only [lookupReport, if_true]
  unfold reportLine
  simp only [hl, hl1]
  funext k
  by_cases hkn : k = item.name
  · simp only [if_pos hkn]
  · simp only [if_neg hkn]

theorem reportLine_of_inherited (report : String → Option ReportEntry) (item : Item)
    (h : report item.name = none) (hk : item.name ∈ objectPrototypeKeys) :
    reportLine report item = report := by
  have hl : lookupReport report item.name = ReportSlot.inherited := by
    simp only [lookupReport, h, if_pos hk]
  unfold reportLine
  simp only [hl]

theorem reportLine_other (report : String → Option ReportEntry) (item : Item) (k : String)
    (hk : k ≠ item.name) : reportLine report item k = report k := by
  cases h : report item.name with
  | some e =>
    rw [reportLine_of_entry report item e h]
    simp only [if_neg hk]
  | none =>
    by_cases hp : item.name ∈ objectPrototypeKeys
    · rw [reportLine_of_inherited report item h hp]
    · rw [reportLine_of_absent report item h hp]
      simp only [if_neg hk]

theorem reportLine_apply (report : String → Option ReportEntry) (item : Item) (k : String)
    (hk : k ∉ objectPrototypeKeys) :
    reportLine report item k
      = if k = item.name then
          some { quantity := ((report k).getD { quantity := 0, total := 0 }).quantity + 1,
                 total := ((report k).getD { quantity := 0, total := 0 }).total + item.price }
        else report k := by
  by_cases hkn : k = item.name
  · subst hkn
    rw [if_pos rfl]
    cases h : report item.name with
    | some e =>
      rw [reportLine_of_entry report item e h]
      simp
    | none =>
      rw [reportLine_of_absent report item h hk]
      simp
  · rw [if_neg hkn, reportLine_other report item k hkn]

theorem reportLine_inherited_none (report : String → Option ReportEntry) (item : Item)
    (k : String) (hk : k ∈ objectPrototypeKeys) (h : report k = none) :
    reportLine report item k = none := by
  by_cases hkn : k = item.name
  · subst hkn
    rw [reportLine_of_inherited report item h hk, h]
  · rw [reportLine_other report item k hkn, h]

theorem linesNamed_cons (n : String) (x : Item) (xs : List Item) :
    linesNamed n (x :: xs) = if x.name = n then x :: linesNamed n xs else linesNamed n xs := by
  unfold linesNamed
  by_cases h : x.name = n
  · simp [List.filter_cons, h]
  · simp [List.filter_cons, h]

theorem linesNamed_append (n : String) (xs ys : List Item) :
    linesNamed n (xs ++ ys) = linesNamed n xs ++ linesNamed n ys := by
  simp [linesNamed, List.filter_append]

theorem foldl_reportLine (lines : List Item) (n : String) (hn0 : n ∉ objectPrototypeKeys) :
    ∀ report : String → Option ReportEntry,
      lines.foldl reportLine report n
        = if linesNamed n lines = [] then report n
          else some
            { quantity := ((report n).getD { quantity := 0, total := 0 }).quantity
                + ((linesNamed n lines).length : Int),
              total := ((report n).getD { quantity := 0, total := 0 }).total
                + ((linesNamed n lines).map Item.price).sum } := by
  induction lines with
  | nil =>
    intro report
    simp [linesNamed]
  | cons x xs ih =>
    intro report
    rw [List.foldl_cons, ih, linesNamed_cons, reportLine_apply _ _ _ hn0]
    by_cases hx : x.name = n
    · have hn : n = x.name := hx.symm
      rw [if_pos hx, if_pos hn]
      by_cases hxs : linesNamed n xs = []
      · simp [hxs]
      · simp [hxs, add_assoc]
        omega
    · have hn : ¬ n = x.name := fun e => hx e.symm
      rw [if_neg hx, if_neg hn]

theorem foldl_sales_report (sales : List Sale) :
    ∀ report : String → Option ReportEntry,
      sales.foldl (fun report sale => sale.items.foldl reportLine report) report
        = (saleLines sales).foldl reportLine report := by
  induction sales with
  | nil => intro report; rfl
  | cons x xs ih =>
    intro report
    rw [List.foldl_cons, ih, saleLines, List.foldl_append]

theorem itemsSoldReport_apply (sales : List Sale) (n : String)
    (hn0 : n ∉ objectPrototypeKeys) :
    itemsSoldReport sales n
      = if linesNamed n (saleLines sales) = [] then none
        else some
          { quantity := ((linesNamed n (saleLines sales)).length : Int),
            total := ((linesNamed n (saleLines sales)).map Item.price).sum } := by
  unfold itemsSoldReport
  rw [foldl_sales_report, foldl_reportLine _ _ hn0]
  simp

theorem menuIds_eq_map (menu : List Category) : menuIds menu = (menuItems menu).map Item.id := by
  induction menu with
  | nil => rfl
  | cons cat cats ih => simp only [menuIds, menuItems, List.map_append, ih]

theorem menuItems_lowerStock (f : Nat → Int) (menu : List Category) :
    menuItems (lowerStock f menu)
      = (menuItems menu).map (fun it => { it with stock := it.stock - f it.id }) := by
  induction menu with
  | nil => rfl
  | cons cat cats ih =>
    have ih2 : menuItems (List.map (fun cat : Category =>
        { cat with items := cat.items.map (fun it => { it with stock := it.stock - f it.id }) })
        cats) = (menuItems cats).map (fun it => { it with stock := it.stock - f it.id }) := ih
    simp only [lowerStock, List.map_cons, menuItems, List.map_append, ih2]

theorem menuItem_eq_of_id (menu : List Category) (h : UniqueIds menu) (a b : Item)
    (ha : a ∈ menuItems menu) (hb : b ∈ menuItems menu) (hid : a.id = b.id) : a = b := by
  unfold UniqueIds at h
  rw [menuIds_eq_map] at h
  exact List.inj_on_of_nodup_map h ha hb hid

theorem setStockFirst_map_id (itemId : Nat) (v : Int) (items : List Item) :
    (setStockFirst itemId v items).map Item.id = items.map Item.id := by
  induction items with
  | nil => rfl
  | cons x xs ih =>
    by_cases hx : x.id = itemId
    · simp only [setStockFirst, if_pos hx, List.map_cons]
    · simp only [setStockFirst, if_neg hx, List.map_cons, ih]

theorem setStockFirst_mem (itemId : Nat) (v : Int) (items : List Item) (it : Item)
    (h : it ∈ setStockFirst itemId v items) :
    it ∈ items ∨ (it.id = itemId ∧ it.stock = v) := by
  induction items with
  | nil => cases h
  | cons x xs ih =>
    by_cases hx : x.id = itemId
    · simp only [setStockFirst, if_pos hx] at h
      rcases List.mem_cons.mp h with e | e
      · right
        rw [e]
        exact ⟨hx, rfl⟩
      · left
        exact List.mem_cons_of_mem _ e
    · simp only [setStockFirst, if_neg hx] at h
      rcases List.mem_cons.mp h with e | e
      · left
        rw [e]
        exact List.mem_cons_self _ _
      · rcases ih e with h1 | h1
        · left
          exact List.mem_cons_of_mem _ h1
        · right
          exact h1

theorem menuIds_setStock (itemId : Nat) (v : Int) (menu : List Category) :
    menuIds (menu.map (fun cat => { cat with items := setStockFirst itemId v cat.items }))
      = menuIds menu := by
  induction menu with
  | nil => rfl
  | cons cat cats ih => simp only [List.map_cons, menuIds, setStockFirst_map_id, ih]

theorem menuItems_setStock_mem (itemId : Nat) (v : Int) (menu : List Category) (it : Item)
    (h : it ∈ menuItems
      (menu.map (fun cat => { cat with items := setStockFirst itemId v cat.items }))) :
    it ∈ menuItems menu ∨ (it.id = itemId ∧ it.stock = v) := by
  induction menu with
  | nil => cases h
  | cons cat cats ih =>
    simp only [List.map_cons, menuItems, List.mem_append] at h ⊢
    rcases h with h | h
    · rcases setStockFirst_mem itemId v cat.items it h with h1 | h1
      · exact Or.inl (Or.inl h1)
      · exact Or.inr h1
    · rcases ih h with h1 | h1
      · exact Or.inl (Or.inr h1)
      · exact Or.inr h1

theorem countInCart_splice1_le (index : Int) (cart : List Item) (id : Nat) :
    countInCart (splice1 index cart) id ≤ countInCart cart id := by
  unfold countInCart
  rw [splice1_eq]
  exact List.Sublist.length_le (List.Sublist.filter _ (List.eraseIdx_sublist _ _))

theorem closeTable_menu_cart (now : Nat) (ts : String) (t : Nat) (s : State) :
    (closeTable now ts t s).2.menu = s.menu ∧ (closeTable now ts t s).2.cart = s.cart := by
  rcases closeTable_cases now ts t s with hd | ⟨tb, _, _, hc⟩
  · rw [hd]
    exact ⟨rfl, rfl⟩
  · rw [hc]
    exact ⟨rfl, rfl⟩

theorem closeDay_menu_cart (confirmed : Bool) (s : State) :
    (closeDay confirmed s).menu = s.menu ∧ (closeDay confirmed s).cart = s.cart := by
  cases confirmed <;> exact ⟨rfl, rfl⟩

theorem stockCovers_step (s : State) (op : Op) (h : StockCovers s)
    (hop : opCovered s op = true) : StockCovers (step s op) := by
  obtain ⟨hu, hc⟩ := h
  cases op with
  | addToCart item =>
    have hitem : item ∈ menuItems s.menu := by simpa [opCovered] using hop
    simp only [step]
    unfold addToCart
    by_cases h1 : item.stock ≤ 0
    · rw [if_pos h1]
      exact ⟨hu, hc⟩
    · rw [if_neg h1]
      by_cases h2 : (countInCart s.cart item.id : Int) ≥ item.stock
      · rw [if_pos h2]
        exact ⟨hu, hc⟩
      · rw [if_neg h2]
        refine ⟨hu, ?_⟩
        intro it hit
        show (countInCart (s.cart ++ [item]) it.id : Int) ≤ it.stock
        rw [countInCart_append]
        by_cases hid : item.id = it.id
        · have heq : item = it := menuItem_eq_of_id s.menu hu item it hitem hit hid
          subst heq
          have : countInCart [item] item.id = 1 := by simp [countInCart]
          rw [this]
          push_cast
          omega
        · have : countInCart [item] it.id = 0 := by simp [countInCart, hid]
          rw [this]
          exact hc it hit
  | removeFromCart index =>
    refine ⟨hu, ?_⟩
    intro it hit
    have hle := countInCart_splice1_le index s.cart it.id
    have := hc it hit
    show (countInCart (splice1 index s.cart) it.id : Int) ≤ it.stock
    omega
  | placeOrder now ts t a c =>
    rcases placeOrder_cases now ts t a c s with hd | hs
    · simp only [step, hd]
      exact ⟨hu, hc⟩
    · simp only [step, placeOrder_sent_eq now ts t a c s hs]
      rw [discountStock_eq_lowerStock _ _ hu]
      refine ⟨?_, ?_⟩
      · unfold UniqueIds
        rw [menuIds_lowerStock]
        exact hu
      · intro it hit
        rw [menuItems_lowerStock, List.mem_map] at hit
        obtain ⟨it0, hit0, he⟩ := hit
        have := hc it0 hit0
        rw [← he]
        simp only [countInCart, List.filter_nil, List.length_nil, Nat.cast_zero]
        simp only [countInCart] at this
        omega
  | markOrderReady orderId => exact ⟨hu, hc⟩
  | updateStock itemId v =>
    have hv : (countInCart s.cart itemId : Int) ≤ parseIntOr0 v := by
      simpa [opCovered] using hop
    simp only [step, updateStock]
    refine ⟨?_, ?_⟩
    · unfold UniqueIds
      rw [menuIds_setStock]
      exact hu
    · intro it hit
      rcases menuItems_setStock_mem itemId _ s.menu it hit with h1 | ⟨h1, h2⟩
      · exact hc it h1
      · rw [h1, h2]
        exact hv
  | closeTable now ts t =>
    obtain ⟨hm, hcart⟩ := closeTable_menu_cart now ts t s
    simp only [step, StockCovers, hm, hcart]
    exact ⟨hu, hc⟩
  | closeDay confirmed =>
    obtain ⟨hm, hcart⟩ := closeDay_menu_cart confirmed s
    simp only [step, StockCovers, hm, hcart]
    exact ⟨hu, hc⟩

theorem stockCovers_run (ops : List Op) :
    ∀ s : State, StockCovers s → opsCovered s ops = true → StockCovers (run s ops) := by
  induction ops with
  | nil => intro s h _; exact h
  | cons op ops ih =>
    intro s h hops
    simp only [opsCovered, Bool.and_eq_true] at hops
    exact ih (step s op) (stockCovers_step s op h hops.1) hops.2

theorem orderLines_append (xs ys : List Order) :
    orderLines (xs ++ ys) = orderLines xs ++ orderLines ys := by
  induction xs with
  | nil => rfl
  | cons x xs ih =>
    rw [List.cons_append]
    simp only [orderLines]
    rw [ih, List.append_assoc]

theorem saleLines_append (xs ys : List Sale) :
    saleLines (xs ++ ys) = saleLines xs ++ saleLines ys := by
  induction xs with
  | nil => rfl
  | cons x xs ih =>
    rw [List.cons_append]
    simp only [saleLines]
    rw [ih, List.append_assoc]

theorem orderLines_markFirstReady (orderId : Nat) (os : List Order) :
    orderLines (markFirstReady orderId os) = orderLines os := by
  induction os with
  | nil => rfl
  | cons x xs ih =>
    by_cases hx : x.id = orderId
    · simp only [markFirstReady, if_pos hx, orderLines]
    · simp only [markFirstReady, if_neg hx, orderLines, ih]

theorem orderLines_filter_markFirstReady (orderId t : Nat) (os : List Order) :
    orderLines ((markFirstReady orderId os).filter (fun o => o.tableId == t))
      = orderLines (os.filter (fun o => o.tableId == t)) := by
  induction os with
  | nil => rfl
  | cons x xs ih =>
    by_cases hx : x.id = orderId
    · simp only [markFirstReady, if_pos hx, List.filter_cons]
      by_cases ht : x.tableId = t
      · simp [ht, orderLines]
      · simp [ht]
    · simp only [markFirstReady, if_neg hx, List.filter_cons]
      by_cases ht : x.tableId = t
      · simp [ht, orderLines, ih]
      · simp [ht, ih]

theorem linesNamed_orderLines_split (n : String) (t : Nat) (os : List Order) :
    (linesNamed n (orderLines os)).length
      = (linesNamed n (orderLines (os.filter (fun o => o.tableId == t)))).length
        + (linesNamed n (orderLines (os.filter (fun o => o.tableId != t)))).length := by
  induction os with
  | nil => rfl
  | cons x xs ih =>
    by_cases ht : x.tableId = t
    · simp [List.filter_cons, ht, orderLines, linesNamed_append, ih]
      omega
    · simp [List.filter_cons, ht, orderLines, linesNamed_append, ih]
      omega

theorem filter_ne_filter_eq (t k : Nat) (os : List Order) :
    (os.filter (fun o => o.tableId != t)).filter (fun o => o.tableId == k)
      = if k = t then [] else os.filter (fun o => o.tableId == k) := by
  rw [List.filter_filter]
  by_cases hk : k = t
  · subst hk
    rw [if_pos rfl, List.filter_eq_nil_iff]
    intro o _
    by_cases ho : o.tableId = k
    · simp [ho]
    · simp [ho]
  · rw [if_neg hk]
    apply List.filter_congr
    intro o _
    by_cases ho : o.tableId = k
    · simp [ho, hk]
    · simp [ho]

theorem mem_orderLines_of_mem (os : List Order) (o : Order) (l : Item) (ho : o ∈ os)
    (hl : l ∈ o.items) : l ∈ orderLines os := by
  induction os with
  | nil => cases ho
  | cons x xs ih =>
    simp only [orderLines, List.mem_append]
    rcases List.mem_cons.mp ho with e | e
    · left
      rw [← e]
      exact hl
    · right
      exact ih e

theorem orderLines_eq_nil (os : List Order) (h : ∀ o ∈ os, o.items = []) :
    orderLines os = [] := by
  induction os with
  | nil => rfl
  | cons x xs ih =>
    simp only [orderLines, h x (List.mem_cons_self _ _), List.nil_append]
    exact ih (fun o ho => h o (List.mem_cons_of_mem _ ho))

theorem tableItems_setTable (s s1 : State) (t k : Nat) (tb : Table)
    (h : s1.tables = setTable s.tables t tb) :
    tableItems s1 k = if k = t then tb.items else tableItems s k := by
  unfold tableItems
  rw [h]
  by_cases hk : k = t
  · subst hk
    rw [setTable_same, if_pos rfl]
  · rw [setTable_other _ _ _ _ hk, if_neg hk]

theorem addToCart_cart_mem (item : Item) (s : State) (l : Item)
    (h : l ∈ (addToCart item s).2.cart) : l ∈ s.cart ∨ l = item := by
  unfold addToCart at h
  by_cases h1 : item.stock ≤ 0
  · rw [if_pos h1] at h
    exact Or.inl h
  · rw [if_neg h1] at h
    by_cases h2 : (countInCart s.cart item.id : Int) ≥ item.stock
    · rw [if_pos h2] at h
      exact Or.inl h
    · rw [if_neg h2] at h
      rcases List.mem_append.mp h with e | e
      · exact Or.inl e
      · exact Or.inr (List.mem_singleton.mp e)

theorem lineOfMenu_of_opDay (menu : List Category) (item : Item)
    (h : opDay menu (Op.addToCart item) = true) : lineOfMenu menu item := by
  simp only [opDay, List.any_eq_true, Bool.and_eq_true, beq_iff_eq] at h
  obtain ⟨m, hm, h1, h2⟩ := h
  exact ⟨m, hm, h1, h2⟩

theorem dayInv_same (menu : List Category) (s s1 : State) (placed : List Item)
    (h : DayInv menu s placed) (ht : s1.tables = s.tables) (ho : s1.orders = s.orders)
    (hs : s1.sales = s.sales) (hc : ∀ l ∈ s1.cart, lineOfMenu menu l) :
    DayInv menu s1 (placed ++ []) := by
  obtain ⟨h1, h2, h3, _, h5⟩ := h
  rw [List.append_nil]
  refine ⟨?_, ?_, ?_, hc, h5⟩
  · intro i t hi
    rw [ht] at hi
    exact h1 i t hi
  · intro t
    have := h2 t
    unfold tableItems at this ⊢
    rw [ht, ho]
    exact this
  · intro n
    rw [hs, ho]
    exact h3 n

theorem dayInv_placeOrder (menu : List Category) (now : Nat) (ts : String) (t : Nat)
    (a c : JsVal) (s : State) (placed : List Item) (h : DayInv menu s placed)
    (hs : (placeOrder now ts t a c s).1 = PlaceOutcome.sent) :
    DayInv menu (placeOrder now ts t a c s).2 (placed ++ s.cart) := by
  have hfree := freeOk_step s (Op.placeOrder now ts t a c) h.1
  obtain ⟨h1, h2, h3, h4, h5⟩ := h
  have hbase : (match s.tables t with
      | none => occupiedTable
      | some tb => if tb.status = TableStatus.free then occupiedTable else tb).items
      = tableItems s t := by
    unfold tableItems
    cases hst : s.tables t with
    | none => rfl
    | some tb =>
      by_cases hf : tb.status = TableStatus.free
      · simp only [if_pos hf]
        rw [h1 t tb hst hf]
        rfl
      · simp only [if_neg hf]
  refine ⟨hfree, ?_, ?_, ?_, ?_⟩
  · intro k
    rw [placeOrder_sent_eq now ts t a c s hs]
    rw [tableItems_setTable s _ t k _ rfl]
    simp only [List.filter_append, orderLines_append]
    by_cases hk : k = t
    · subst hk
      rw [if_pos rfl, hbase, h2 k]
      simp [orderLines]
    · rw [if_neg hk, h2 k]
      have hk2 : ¬ t = k := fun e => hk e.symm
      simp [hk2, orderLines]
  · intro n
    rw [placeOrder_sent_eq now ts t a c s hs]
    simp only [orderLines_append, linesNamed_append, List.length_append, h3 n, orderLines,
      List.append_nil]
    omega
  · intro l hl
    rw [placeOrder_sent_eq now ts t a c s hs] at hl
    cases hl
  · intro l hl
    rcases List.mem_append.mp hl with e | e
    · exact h5 l e
    · exact h4 l e

theorem dayInv_closeTable (menu : List Category) (now : Nat) (ts : String) (t : Nat)
    (s : State) (placed : List Item) (h : DayInv menu s placed) :
    DayInv menu (closeTable now ts t s).2 (placed ++ []) := by
  have hfree := freeOk_step s (Op.closeTable now ts t) h.1
  rcases closeTable_cases now ts t s with hd | ⟨tb, htb, _, hc⟩
  · rw [hd]
    exact dayInv_same menu s s placed h rfl rfl rfl h.2.2.2.1
  · obtain ⟨_, h2, h3, h4, h5⟩ := h
    have htab : tb.items = orderLines (s.orders.filter (fun o => o.tableId == t)) := by
      have := h2 t
      unfold tableItems at this
      rw [htb] at this
      exact this
    rw [List.append_nil]
    refine ⟨hfree, ?_, ?_, ?_, h5⟩
    · intro k
      rw [hc, tableItems_setTable s _ t k _ rfl]
      simp only [filter_ne_filter_eq]
      by_cases hk : k = t
      · rw [if_pos hk, if_pos hk]
        rfl
      · rw [if_neg hk, if_neg hk]
        exact h2 k
    · intro n
      rw [hc]
      simp only [saleLines_append, saleLines, List.append_nil, linesNamed_append,
        List.length_append, h3 n, htab]
      have := linesNamed_orderLines_split n t s.orders
      omega
    · intro l hl
      rw [hc] at hl
      exact h4 l hl

theorem dayInv_step (menu : List Category) (s : State) (placed : List Item) (op : Op)
    (h : DayInv menu s placed) (hop : opDay menu op = true) :
    DayInv menu (step s op) (placed ++ placedLines s [op]) := by
  cases op with
  | addToCart item =>
    simp only [step, placedLines]
    apply dayInv_same menu s _ placed h
    · rw [addToCart_snd]
    · rw [addToCart_snd]
    · rw [addToCart_snd]
    · intro l hl
      rcases addToCart_cart_mem item s l hl with e | e
      · exact h.2.2.2.1 l e
      · rw [e]
        exact lineOfMenu_of_opDay menu item hop
  | removeFromCart index =>
    simp only [step, placedLines]
    refine dayInv_same menu s (removeFromCart index s) placed h rfl rfl rfl ?_
    intro l hl
    have hsub : List.Sublist (splice1 index s.cart) s.cart := by
      rw [splice1_eq]
      exact List.eraseIdx_sublist _ _
    exact h.2.2.2.1 l (hsub.subset hl)
  | placeOrder now ts t a c =>
    simp only [step, placedLines, List.append_nil]
    by_cases hs : (placeOrder now ts t a c s).1 = PlaceOutcome.sent
    · rw [if_pos hs]
      exact dayInv_placeOrder menu now ts t a c s placed h hs
    · rw [if_neg hs, placeOrder_declined_eq now ts t a c s hs]
      exact dayInv_same menu s s placed h rfl rfl rfl h.2.2.2.1
  | markOrderReady orderId =>
    simp only [step, placedLines]
    obtain ⟨h1, h2, h3, h4, h5⟩ := h
    rw [List.append_nil]
    refine ⟨h1, ?_, ?_, h4, h5⟩
    · intro t
      show tableItems s t = orderLines ((markFirstReady orderId s.orders).filter _)
      rw [orderLines_filter_markFirstReady]
      exact h2 t
    · intro n
      show _ = _ + (linesNamed n (orderLines (markFirstReady orderId s.orders))).length
      rw [orderLines_markFirstReady]
      exact h3 n
  | updateStock itemId v => simp [opDay] at hop
  | closeTable now ts t =>
    simp only [step, placedLines]
    exact dayInv_closeTable menu now ts t s placed h
  | closeDay confirmed => simp [opDay] at hop

theorem dayInv_run (menu : List Category) (ops : List Op) :
    ∀ (s : State) (placed : List Item), DayInv menu s placed →
      (∀ op ∈ ops, opDay menu op = true) →
      DayInv menu (run s ops) (placed ++ placedLines s ops) := by
  induction ops with
  | nil =>
    intro s placed h _
    simp only [placedLines, List.append_nil]
    exact h
  | cons op ops ih =>
    intro s placed h hops
    have h1 := dayInv_step menu s placed op h (hops op (List.mem_cons_self _ _))
    have h2 := ih (step s op) _ h1 (fun o ho => hops o (List.mem_cons_of_mem _ ho))
    rw [placedLines_cons s op ops, ← List.append_assoc]
    exact h2

theorem dayInv_initState (menu : List Category) (n : Nat) :
    DayInv menu (initState menu n) [] := by
  refine ⟨freeOk_initState menu n, ?_, ?_, ?_, ?_⟩
  · intro t
    unfold tableItems
    cases hst : (initState menu n).tables t with
    | none => rfl
    | some tb =>
      have hst2 := hst
      simp only [initState, initTables, initLoop_spec] at hst2
      split at hst2
      · cases hst2
        rfl
      · cases hst2
  · intro k
    rfl
  · intro l hl
    cases hl
  · intro l hl
    cases hl

theorem itemsSoldReport_of_ordinary_name (s : State) (n : String)
    (hn0 : n ∉ objectPrototypeKeys) :
    ((getItemsSoldReport s n).isSome ↔ ∃ it ∈ saleLines s.sales, it.name = n)
      ∧ ∀ e, getItemsSoldReport s n = some e →
          e.quantity = (((saleLines s.sales).filter (fun it => it.name = n)).length : Int)
            ∧ e.total
                = (((saleLines s.sales).filter (fun it => it.name = n)).map Item.price).sum := by
  have happ := itemsSoldReport_apply s.sales n hn0
  have hmem : linesNamed n (saleLines s.sales) = []
      ↔ ¬ ∃ it ∈ saleLines s.sales, it.name = n := by
    unfold linesNamed
    rw [List.filter_eq_nil_iff]
    constructor
    · rintro h ⟨it, hit, hn⟩
      exact h it hit (by simp [hn])
    · intro h it hit hn
      exact h ⟨it, hit, by simpa using hn⟩
  unfold getItemsSoldReport
  by_cases hnil : linesNamed n (saleLines s.sales) = []
  · rw [happ, if_pos hnil]
    refine ⟨?_, ?_⟩
    · constructor
      · intro h
        cases h
      · intro h
        exact absurd h (hmem.mp hnil)
    · intro e he
      cases he
  · rw [happ, if_neg hnil]
    refine ⟨?_, ?_⟩
    · constructor
      · intro _
        exact not_not.mp (fun h => hnil (hmem.mpr h))
      · intro _
        rfl
    · intro e he
      cases he
      exact ⟨rfl, rfl⟩

theorem foldl_reportLine_inherited (lines : List Item) (n : String)
    (hn0 : n ∈ objectPrototypeKeys) :
    ∀ report : String → Option ReportEntry, report n = none →
      lines.foldl reportLine report n = none := by
  induction lines with
  | nil => intro report h; exact h
  | cons x xs ih =>
    intro report h
    rw [List.foldl_cons]
    exact ih _ (reportLine_inherited_none report x n hn0 h)

theorem itemsSoldReport_inherited (sales : List Sale) (n : String)
    (hn0 : n ∈ objectPrototypeKeys) : itemsSoldReport sales n = none := by
  unfold itemsSoldReport
  rw [foldl_sales_report]
  exact foldl_reportLine_inherited _ n hn0 _ rfl

theorem quantityOr0_eq (report : String → Option ReportEntry) (n : String) :
    quantityOr0 report n = ((report n).map ReportEntry.quantity).getD 0 := by
  unfold quantityOr0 lookupReport
  cases report n with
  | none =>
    by_cases hp : n ∈ objectPrototypeKeys
    · simp only [if_pos hp]
      rfl
    · simp only [if_neg hp]
      rfl
  | some e =>
    by_cases h : e.quantity = 0
    · simp [h]
    · simp [h]

theorem quantityOr0_itemsSoldReport (sales : List Sale) (n : String)
    (hn0 : n ∉ objectPrototypeKeys) :
    quantityOr0 (itemsSoldReport sales) n = ((linesNamed n (saleLines sales)).length : Int) := by
  rw [quantityOr0_eq, itemsSoldReport_apply sales n hn0]
  by_cases h : linesNamed n (saleLines sales) = []
  · simp [h]
  · simp [h]

theorem bevItems_lowerStock (f : Nat → Int) (menu : List Category) :
    bevItems (lowerStock f menu)
      = (bevItems menu).map (fun it => { it with stock := it.stock - f it.id }) := by
  unfold bevItems lowerStock
  induction menu with
  | nil => rfl
  | cons cat cats ih =>
    by_cases hc : cat.id = "beverages"
    · simp [List.find?_cons, hc]
    · simp only [List.map_cons, List.find?_cons]
      have h1 : (cat.id == "beverages") = false := by simp [hc]
      simp only [h1]
      exact ih

theorem bevItems_subset (menu : List Category) (m : Item) (h : m ∈ bevItems menu) :
    m ∈ menuItems menu := by
  unfold bevItems at h
  induction menu with
  | nil => cases h
  | cons cat cats ih =>
    simp only [menuItems, List.mem_append]
    by_cases hc : cat.id = "beverages"
    · left
      simpa [List.find?_cons, hc] using h
    · right
      have h1 : (cat.id == "beverages") = false := by simp [hc]
      simp only [List.find?_cons, h1] at h
      exact ih h

theorem menuItem_eq_of_name (menu : List Category) (h : UniqueNames menu) (a b : Item)
    (ha : a ∈ menuItems menu) (hb : b ∈ menuItems menu) (hname : a.name = b.name) : a = b :=
  List.inj_on_of_nodup_map h ha hb hname

theorem linesNamed_length_eq_count (menu : List Category) (hu : UniqueIds menu)
    (hn : UniqueNames menu) (m : Item) (hm : m ∈ menuItems menu) (lines : List Item)
    (hl : ∀ l ∈ lines, lineOfMenu menu l) :
    (linesNamed m.name lines).length = countInCart lines m.id := by
  unfold linesNamed countInCart
  congr 1
  apply List.filter_congr
  intro l hmem
  obtain ⟨m1, hm1, hid, hname⟩ := hl l hmem
  by_cases h1 : l.name = m.name
  · have : m1 = m := menuItem_eq_of_name menu hn m1 m hm1 hm (by rw [hname, h1])
    have h2 : l.id = m.id := by rw [← hid, this]
    simp [h1, h2]
  · have h2 : ¬ l.id = m.id := by
      intro e
      have : m1 = m := menuItem_eq_of_id menu hu m1 m hm1 hm (by rw [hid, e])
      exact h1 (by rw [← hname, this])
    simp [h1, h2]

theorem isUpdateStock_of_opDay (menu : List Category) (op : Op) (h : opDay menu op = true) :
    Op.isUpdateStock op = false := by
  cases op with
  | updateStock itemId v => simp [opDay] at h
  | addToCart item => rfl
  | removeFromCart index => rfl
  | placeOrder now ts t a c => rfl
  | markOrderReady orderId => rfl
  | closeTable now ts t => rfl
  | closeDay confirmed => rfl

theorem orderLines_nil_of_tables_free (menu : List Category) (s : State) (placed : List Item)
    (h : DayInv menu s placed)
    (hfree : ∀ i t, s.tables i = some t → t.status = TableStatus.free) :
    orderLines s.orders = [] := by
  obtain ⟨h1, h2, _, _, _⟩ := h
  have hempty : ∀ t, tableItems s t = [] := by
    intro t
    unfold tableItems
    cases hst : s.tables t with
    | none => rfl
    | some tb =>
      show tb.items = []
      rw [h1 t tb hst (hfree t tb hst)]
      rfl
  apply orderLines_eq_nil
  intro o ho
  cases hitems : o.items with
  | nil => rfl
  | cons l ls =>
    exfalso
    have hmem : l ∈ orderLines (s.orders.filter (fun o1 => o1.tableId == o.tableId)) := by
      apply mem_orderLines_of_mem _ o l
      · rw [List.mem_filter]
        exact ⟨ho, by simp⟩
      · rw [hitems]
        exact List.mem_cons_self _ _
    rw [← h2 o.tableId, hempty o.tableId] at hmem
    cases hmem

theorem sold_eq_placed_of_tables_free (menu : List Category) (n : Nat) (ops : List Op)
    (hu : UniqueIds menu) (hn : UniqueNames menu) (hops : ∀ op ∈ ops, opDay menu op = true)
    (hfree : ∀ i t, (run (initState menu n) ops).tables i = some t → t.status = TableStatus.free)
    (m : Item) (hm : m ∈ menuItems menu) (hname : m.name ∉ objectPrototypeKeys) :
    quantityOr0 (getItemsSoldReport (run (initState menu n) ops)) m.name
      = (countInCart (placedLines (initState menu n) ops) m.id : Int) := by
  have hinv := dayInv_run menu ops (initState menu n) [] (dayInv_initState menu n) hops
  rw [List.nil_append] at hinv
  have hol := orderLines_nil_of_tables_free menu _ _ hinv hfree
  have hacc := hinv.2.2.1 m.name
  rw [hol] at hacc
  have hlink := linesNamed_length_eq_count menu hu hn m hm _ hinv.2.2.2.2
  unfold getItemsSoldReport
  rw [quantityOr0_itemsSoldReport _ _ hname]
  have hz : (linesNamed m.name ([] : List Item)).length = 0 := rfl
  rw [hz, Nat.add_zero] at hacc
  rw [← hacc, hlink]

theorem exClosed_tables (i : Nat) :
    (run (initState exMenu 10) (exOps ++ [Op.closeTable 9 "t9" 3])).tables i
      = if 1 ≤ i ∧ i ≤ 10 then some freeTable else none := by
  have h : (run (initState exMenu 10) (exOps ++ [Op.closeTable 9 "t9" 3])).tables
      = setTable (setTable (setTable (initState exMenu 10).tables 3
          { items := [exA, exA], total := 1000, status := TableStatus.occupied,
            adults := 2, children := 1 }) 3 exTable3) 3 freeTable := by
    rfl
  rw [h]
  by_cases h3 : i = 3
  · subst h3
    rfl
  · simp only [setTable, if_neg h3, initState, initTables, initLoop_spec]
    by_cases hr : 1 ≤ i ∧ i ≤ 10
    · simp [hr]
    · simp [hr]

theorem exClosed_tables_free (i : Nat) (t : Table)
    (h : (run (initState exMenu 10) (exOps ++ [Op.closeTable 9 "t9" 3])).tables i = some t) :
    t.status = TableStatus.free := by
  rw [exClosed_tables] at h
  split at h
  · cases h
    rfl
  · cases h

/-! ## The properties -/

/-- C1: in every state reached from the initial state (empty cart, orders and
sales, tables `1..totalTables` created by `initTables`) by any sequence of
`addToCart`, `removeFromCart`, `placeOrder`, `markOrderReady`, `updateStock`,
`closeTable` and `closeDay`, every table of the registry has a total equal to
the sum of the prices of the items of its item list. -/
theorem table_total_eq_sum_of_prices (menu : List Category) (totalTables : Nat)
    (ops : List Op) (i : Nat) (t : Table)
    (h : (run (initState menu totalTables) ops).tables i = some t) :
    t.total = (t.items.map Item.price).sum :=
  run_invariant TotalsOk totalsOk_step ops _ (totalsOk_initState menu totalTables) i t h

/-- Witness of C1: after `exOps`, table 3 holds three lines and a total of 1500. -/
theorem table_total_eq_sum_of_prices_witness :
    (run (initState exMenu 10) exOps).tables 3 = some exTable3
      ∧ exTable3.total = (exTable3.items.map Item.price).sum :=
  ⟨by decide, table_total_eq_sum_of_prices exMenu 10 exOps 3 exTable3 (by decide)⟩

/-- C2: on a menu with unique item ids, a successful `placeOrder` lowers the
stock of every menu item by exactly the number of cart lines carrying its id and
changes nothing else in the menu, a declined `placeOrder` leaves the menu as it
was, and over any sequence of calls without `updateStock` the stock of every
item is lowered by the number of lines with its id in the carts of the
successful placements. -/
theorem placeOrder_stock_decrement (s : State) (h : UniqueIds s.menu) :
    (∀ (now : Nat) (ts : String) (t : Nat) (a c : JsVal),
        ((placeOrder now ts t a c s).1 = PlaceOutcome.sent →
          (placeOrder now ts t a c s).2.menu
            = lowerStock (fun j => (countInCart s.cart j : Int)) s.menu)
        ∧ ((placeOrder now ts t a c s).1 ≠ PlaceOutcome.sent →
          (placeOrder now ts t a c s).2.menu = s.menu))
    ∧ (∀ ops : List Op, (∀ op ∈ ops, Op.isUpdateStock op = false) →
        (run s ops).menu
          = lowerStock (fun j => (countInCart (placedLines s ops) j : Int)) s.menu) := by
  refine ⟨?_, fun ops hops => run_menu ops s h hops⟩
  intro now ts t a c
  constructor
  · intro hs
    rw [placeOrder_menu, if_pos hs, discountStock_eq_lowerStock _ _ h]
  · intro hs
    rw [placeOrder_menu, if_neg hs]

/-- Witness of C2: on `exMenu`, after `exOps` three lines of item 1 were
placed and its stock went from 5 to 2, the stock of item 2 is unchanged. -/
theorem placeOrder_stock_decrement_witness :
    UniqueIds exInit.menu
      ∧ (∀ op ∈ exOps, Op.isUpdateStock op = false)
      ∧ (placedLines exInit exOps).length = 3
      ∧ (run exInit exOps).menu
          = [{ id := "beverages", items := [{ exA with stock := 2 }] },
             { id := "food", items := [exB] }]
      ∧ (run exInit exOps).menu
          = lowerStock (fun j => (countInCart (placedLines exInit exOps) j : Int)) exInit.menu :=
  ⟨by decide, by decide, by decide, by decide,
    (placeOrder_stock_decrement exInit (by decide)).2 exOps (by decide)⟩

/-- C3: for an item with stock `S >= 0` and a cart holding no line with its
id, `N` consecutive `addToCart` calls with that item return `true` for the
first `min N S` calls and `false` for all later ones (so the `(S+1)`-th call
is declined), and afterwards the cart is the old cart followed by `min N S`
copies of the item, so it holds exactly `min N S` lines of that id; nothing
else in the state changes. -/
theorem addToCart_repeat_min (item : Item) (N : Nat) (s : State)
    (hS : 0 ≤ item.stock) (h0 : countInCart s.cart item.id = 0) :
    (addRepeat item N s).1
        = List.replicate (min N item.stock.toNat) true
            ++ List.replicate (N - min N item.stock.toNat) false
      ∧ ((addRepeat item N s).1.filter (fun b => b = true)).length = min N item.stock.toNat
      ∧ (∀ k, item.stock.toNat ≤ k → k < N → (addRepeat item N s).1.get? k = some false)
      ∧ (addRepeat item N s).2
          = { s with cart := s.cart ++ List.replicate (min N item.stock.toNat) item }
      ∧ countInCart (addRepeat item N s).2.cart item.id = min N item.stock.toNat := by
  have hS2 : item.stock = ((item.stock.toNat : Nat) : Int) := (Int.toNat_of_nonneg hS).symm
  have hspec := addRepeat_spec item item.stock.toNat hS2 N s
  rw [h0, Nat.sub_zero] at hspec
  rw [hspec]
  refine ⟨rfl, ?_, ?_, rfl, ?_⟩
  · simp [List.filter_append, List.filter_replicate]
  · intro k hk hkN
    have hlen : (List.replicate (min N item.stock.toNat) true).length ≤ k := by
      simp only [List.length_replicate]
      omega
    rw [List.get?_eq_getElem?, List.getElem?_append_right hlen, List.getElem?_replicate]
    simp only [List.length_replicate]
    have : k - min N item.stock.toNat < N - min N item.stock.toNat := by omega
    simp [this]
  · simp only [countInCart_append, h0, Nat.zero_add]
    simp [countInCart, List.filter_replicate]

/-- Witness of C3: item A with stock 2 is added four times to the empty cart
of the initial state. -/
theorem addToCart_repeat_min_witness :
    (addRepeat { exA with stock := 2 } 4 exInit).1 = [true, true, false, false]
      ∧ (addRepeat { exA with stock := 2 } 4 exInit).2.cart
          = [{ exA with stock := 2 }, { exA with stock := 2 }]
      ∧ countInCart (addRepeat { exA with stock := 2 } 4 exInit).2.cart 1 = min 4 2 :=
  ⟨by decide, by decide,
    (addToCart_repeat_min { exA with stock := 2 } 4 exInit (by decide) (by decide)).2.2.2.2⟩

/-- C4: `addToCart` is declined (returns `false`) exactly when the item's
stock is `<= 0` or the number of cart lines with its id is already `>=` its
stock; a declined call leaves the state, in particular the cart, unchanged (an
item with stock 0 is always declined), and an accepted call leaves the old
cart with the item appended at the end, nothing else being changed. -/
theorem addToCart_declined_iff (item : Item) (s : State) :
    ((addToCart item s).1 = false
        ↔ item.stock ≤ 0 ∨ item.stock ≤ ((s.cart.map Item.id).count item.id : Int))
      ∧ ((addToCart item s).1 = false → (addToCart item s).2 = s)
      ∧ (item.stock = 0 → addToCart item s = (false, s))
      ∧ ((addToCart item s).1 = true →
          (addToCart item s).2 = { s with cart := s.cart ++ [item] }) := by
  rw [← countInCart_eq_count]
  unfold addToCart
  by_cases h1 : item.stock ≤ 0
  · rw [if_pos h1]
    refine ⟨⟨fun _ => Or.inl h1, fun _ => rfl⟩, fun _ => rfl, fun _ => rfl, ?_⟩
    intro h
    cases h
  · by_cases h2 : (countInCart s.cart item.id : Int) ≥ item.stock
    · rw [if_neg h1, if_pos h2]
      refine ⟨⟨fun _ => Or.inr h2, fun _ => rfl⟩, fun _ => rfl, ?_, ?_⟩
      · intro h0
        exact absurd (le_of_eq h0) h1
      · intro h
        cases h
    · rw [if_neg h1, if_neg h2]
      refine ⟨⟨?_, ?_⟩, ?_, ?_, fun _ => rfl⟩
      · intro h
        cases h
      · intro h
        rcases h with h | h
        · exact absurd h h1
        · exact absurd h h2
      · intro h
        cases h
      · intro h0
        exact absurd (le_of_eq h0) h1

/-- Witness of C4: with two lines of item 1 in the cart, a third add of that
item with stock 2 is declined and the cart is unchanged; with stock 5 it is
accepted and appended. -/
theorem addToCart_declined_iff_witness :
    (addToCart { exA with stock := 2 } (run exInit [Op.addToCart exA, Op.addToCart exA])).1 = false
      ∧ (addToCart { exA with stock := 2 }
            (run exInit [Op.addToCart exA, Op.addToCart exA])).2.cart = [exA, exA]
      ∧ (addToCart exA (run exInit [Op.addToCart exA, Op.addToCart exA])).2.cart
          = [exA, exA, exA]
      ∧ (addToCart { exA with stock := 2 } (run exInit [Op.addToCart exA, Op.addToCart exA])).2
          = run exInit [Op.addToCart exA, Op.addToCart exA] :=
  ⟨by decide, by decide, by decide,
    (addToCart_declined_iff { exA with stock := 2 }
      (run exInit [Op.addToCart exA, Op.addToCart exA])).2.1 (by decide)⟩

/-- C5: when table `t` exists and is not free, `closeTable t` returns `true`;
afterwards table `t` is the free table (no items, total 0, adults 0, children
0), the sales ledger is the previous one followed by exactly one sale whose
`tableId` is `t` and whose items and total are those of the table before the
call, the order ledger is the previous one without the orders of table `t`
(pending or ready), the other orders being kept in order and unchanged, and
every other table is unchanged. -/
theorem closeTable_effects (now : Nat) (ts : String) (t : Nat) (s : State) (tb : Table)
    (h : s.tables t = some tb) (hf : tb.status ≠ TableStatus.free) :
    (closeTable now ts t s).1 = true
      ∧ (closeTable now ts t s).2.tables t
          = some { items := [], total := 0, status := TableStatus.free, adults := 0,
                   children := 0 }
      ∧ (∃ sale : Sale, (closeTable now ts t s).2.sales = s.sales ++ [sale]
          ∧ sale.tableId = t ∧ sale.items = tb.items ∧ sale.total = tb.total)
      ∧ (closeTable now ts t s).2.orders = s.orders.filter (fun o => decide (o.tableId ≠ t))
      ∧ (∀ k, k ≠ t → (closeTable now ts t s).2.tables k = s.tables k) := by
  have hc : closeTable now ts t s =
      (true,
        { s with sales := s.sales ++ [{ id := now, tableId := t, items := tb.items,
                                        total := tb.total,
                                        adults := if tb.adults = 0 then 0 else tb.adults,
                                        children := if tb.children = 0 then 0 else tb.children,
                                        timestamp := ts }],
                 tables := setTable s.tables t freeTable,
                 orders := s.orders.filter (fun o => o.tableId != t) }) := by
    unfold closeTable
    rw [h]
    simp only [if_neg hf]
  rw [hc]
  refine ⟨rfl, ?_, ⟨_, rfl, rfl, rfl, rfl⟩, ?_, ?_⟩
  · exact setTable_same s.tables t freeTable
  · show s.orders.filter (fun o => o.tableId != t) = _
    congr 1
    funext o
    by_cases ho : o.tableId = t
    · simp [ho]
    · simp [ho]
  · intro k hk
    exact setTable_other s.tables t k freeTable hk

/-- Witness of C5: table 3 is closed after `exOps`; the one sale has total
1500 and both orders of table 3 are gone. -/
theorem closeTable_effects_witness :
    (run exInit exOps).tables 3 = some exTable3
      ∧ exTable3.status ≠ TableStatus.free
      ∧ (run exInit exOps).orders.length = 2
      ∧ (closeTable 9 "t9" 3 (run exInit exOps)).2.orders = []
      ∧ (closeTable 9 "t9" 3 (run exInit exOps)).2.sales.map Sale.total = [1500]
      ∧ (closeTable 9 "t9" 3 (run exInit exOps)).1 = true :=
  ⟨by decide, by decide, by decide, by decide, by decide,
    (closeTable_effects 9 "t9" 3 (run exInit exOps) exTable3 (by decide) (by decide)).1⟩

/-- C6: `closeTable t` is declined (returns `false`) exactly when table `t` is
absent from the registry or its status is free; a declined call leaves the
whole state (menu, cart, orders, tables, sales) as it was. -/
theorem closeTable_declined_iff (now : Nat) (ts : String) (t : Nat) (s : State) :
    ((closeTable now ts t s).1 = false
        ↔ s.tables t = none ∨ ∃ tb, s.tables t = some tb ∧ tb.status = TableStatus.free)
      ∧ ((closeTable now ts t s).1 = false → (closeTable now ts t s).2 = s) := by
  unfold closeTable
  cases hst : s.tables t with
  | none => simp
  | some tb =>
    by_cases hf : tb.status = TableStatus.free
    · simp [hf]
    · simp [hf]

/-- Witness of C6: in the initial state table 3 is free and table 11 is
absent; closing either is declined and changes nothing. -/
theorem closeTable_declined_iff_witness :
    (closeTable 9 "t9" 3 exInit).1 = false
      ∧ (closeTable 9 "t9" 11 exInit).1 = false
      ∧ (closeTable 9 "t9" 3 (run exInit exOps)).1 = true
      ∧ (closeTable 9 "t9" 3 exInit).2 = exInit :=
  ⟨by decide, by decide, by decide,
    (closeTable_declined_iff 9 "t9" 3 exInit).2 (by decide)⟩

/-- C7: `placeOrder` is declined exactly when the cart is empty or the sum
of the parsed adults and children counts is `<= 0`, a count that does not parse
(`NaN`) or is missing counting as 0; a declined call leaves the whole state
(menu stock, cart, orders, tables, sales) unchanged. -/
theorem placeOrder_declined_iff (now : Nat) (ts : String) (t : Nat) (a c : JsVal) (s : State) :
    ((placeOrder now ts t a c s).1 ≠ PlaceOutcome.sent
        ↔ s.cart = [] ∨ (parseInt a).getD 0 + (parseInt c).getD 0 ≤ 0)
      ∧ ((placeOrder now ts t a c s).1 = PlaceOutcome.emptyCart ↔ s.cart = [])
      ∧ ((placeOrder now ts t a c s).1 ≠ PlaceOutcome.sent → (placeOrder now ts t a c s).2 = s) := by
  refine ⟨?_, ?_, placeOrder_declined_eq now ts t a c s⟩
  · rw [Ne, placeOrder_sent_iff, ← parseIntOr0_eq, ← parseIntOr0_eq, List.length_eq_zero]
    tauto
  · unfold placeOrder
    by_cases h1 : s.cart.length = 0
    · rw [if_pos h1]
      exact ⟨fun _ => List.length_eq_zero.mp h1, fun _ => rfl⟩
    · rw [if_neg h1]
      have h1b : ¬ s.cart = [] := fun e => h1 (List.length_eq_zero.mpr e)
      by_cases h2 : parseIntOr0 a + parseIntOr0 c ≤ 0
      · simp only [if_pos h2]
        exact ⟨fun e => (by cases e), fun e => absurd e h1b⟩
      · simp only [if_neg h2]
        exact ⟨fun e => (by cases e), fun e => absurd e h1b⟩

/-- Witness of C7: with one line in the cart, `placeOrder(3, "abc", undefined)`
has party size 0 and is declined, leaving the state unchanged. -/
theorem placeOrder_declined_iff_witness :
    (placeOrder 7 "t7" 3 (JsVal.str "abc") JsVal.undefined (run exInit [Op.addToCart exA])).1
        = PlaceOutcome.zeroPax
      ∧ (placeOrder 7 "t7" 3 (JsVal.str "2") (JsVal.str "1") exInit).1 = PlaceOutcome.emptyCart
      ∧ (placeOrder 7 "t7" 3 (JsVal.str "2") (JsVal.str "-1") (run exInit [Op.addToCart exA])).1
        = PlaceOutcome.sent
      ∧ (placeOrder 7 "t7" 3 (JsVal.str "abc") JsVal.undefined (run exInit [Op.addToCart exA])).2
        = run exInit [Op.addToCart exA] :=
  ⟨by decide, by decide, by decide,
    (placeOrder_declined_iff 7 "t7" 3 (JsVal.str "abc") JsVal.undefined
      (run exInit [Op.addToCart exA])).2.2 (by decide)⟩

/-- C8: after a successful `placeOrder(t, adults, children)` with cart `C`: if
table `t` was occupied with items `I` and total `T`, its items are `I` followed
by `C`, its total is `T` plus the sum of the prices of `C`, and its adults and
children are the parsed values of this submission (not added to the previous
ones); if table `t` was free or absent, its items are `C` and its total is the
sum of the prices of `C`; in both cases its status is occupied, and every other
table is unchanged. -/
theorem placeOrder_table_merge (now : Nat) (ts : String) (t : Nat) (a c : JsVal) (s : State)
    (h : (placeOrder now ts t a c s).1 = PlaceOutcome.sent) :
    (∀ tb, s.tables t = some tb → tb.status = TableStatus.occupied →
        (placeOrder now ts t a c s).2.tables t
          = some { items := tb.items ++ s.cart,
                   total := tb.total + (s.cart.map Item.price).sum,
                   status := TableStatus.occupied,
                   adults := (parseInt a).getD 0,
                   children := (parseInt c).getD 0 })
      ∧ ((s.tables t = none ∨ ∃ tb, s.tables t = some tb ∧ tb.status = TableStatus.free) →
        (placeOrder now ts t a c s).2.tables t
          = some { items := s.cart,
                   total := (s.cart.map Item.price).sum,
                   status := TableStatus.occupied,
                   adults := (parseInt a).getD 0,
                   children := (parseInt c).getD 0 })
      ∧ (∀ k, k ≠ t → (placeOrder now ts t a c s).2.tables k = s.tables k) := by
  rw [placeOrder_sent_eq now ts t a c s h]
  simp only [sumPrices_eq, parseIntOr0_eq]
  refine ⟨?_, ?_, ?_⟩
  · intro tb htb hocc
    have hnf : ¬ tb.status = TableStatus.free := by
      rw [hocc]
      intro e
      cases e
    rw [setTable_same, htb]
    simp only [if_neg hnf]
  · intro hfree
    rw [setTable_same]
    rcases hfree with hnone | ⟨tb, htb, hf⟩
    · rw [hnone]
      simp [occupiedTable]
    · rw [htb]
      simp [hf, occupiedTable]
  · intro k hk
    exact setTable_other s.tables t k _ hk

/-- Witness of C8: the second placement of `exOps` reaches table 3 occupied
with two lines, total 1000, adults 2 and children 1; afterwards it holds three
lines, total 1500, adults 2 and children 0. -/
theorem placeOrder_table_merge_witness :
    (run exInit (exOps.take 4)).tables 3
        = some { items := [exA, exA], total := 1000, status := TableStatus.occupied,
                 adults := 2, children := 1 }
      ∧ (placeOrder 8 "t8" 3 (JsVal.str "2") JsVal.undefined (run exInit (exOps.take 4))).2.tables 3
        = some exTable3
      ∧ (∀ k, k ≠ 3 →
          (placeOrder 8 "t8" 3 (JsVal.str "2") JsVal.undefined
            (run exInit (exOps.take 4))).2.tables k
            = (run exInit (exOps.take 4)).tables k) :=
  ⟨by decide, by decide,
    (placeOrder_table_merge 8 "t8" 3 (JsVal.str "2") JsVal.undefined
      (run exInit (exOps.take 4)) (by decide)).2.2⟩

/-- C9: after a successful `placeOrder(t, ...)` with cart `C`, the order
ledger is the previous ledger, every earlier order unchanged, followed by
exactly one new order with `tableId` `t`, status pending and items `C` as the
cart was before the call; and the cart is empty. -/
theorem placeOrder_appends_order (now : Nat) (ts : String) (t : Nat) (a c : JsVal) (s : State)
    (h : (placeOrder now ts t a c s).1 = PlaceOutcome.sent) :
    (∃ o : Order, (placeOrder now ts t a c s).2.orders = s.orders ++ [o]
        ∧ o.tableId = t ∧ o.status = OrderStatus.pending ∧ o.items = s.cart)
      ∧ (placeOrder now ts t a c s).2.cart = [] := by
  rw [placeOrder_sent_eq now ts t a c s h]
  exact ⟨⟨_, rfl, rfl, rfl, rfl⟩, rfl⟩

/-- Witness of C9: the second placement of `exOps` appends one pending order
for table 3 after the first one and empties the cart. -/
theorem placeOrder_appends_order_witness :
    (run exInit (exOps.take 4)).orders.length = 1
      ∧ (placeOrder 8 "t8" 3 (JsVal.str "2") JsVal.undefined (run exInit (exOps.take 4))).2.orders
        = (run exInit (exOps.take 4)).orders
            ++ [{ id := 8, tableId := 3, items := [{ exA with stock := 3 }],
                  status := OrderStatus.pending, timestamp := "t8" }]
      ∧ (placeOrder 8 "t8" 3 (JsVal.str "2") JsVal.undefined (run exInit (exOps.take 4))).2.cart
        = [] :=
  ⟨by decide, by decide,
    (placeOrder_appends_order 8 "t8" 3 (JsVal.str "2") JsVal.undefined
      (run exInit (exOps.take 4)) (by decide)).2⟩

/-- C10: a confirmed `closeDay` leaves the sales ledger and the order ledger
empty, sets every table with index in `[1, totalTables]` to the free table (no
items, total 0, adults 0, children 0), and leaves the menu, hence the stock of
every menu item, unchanged. -/
theorem closeDay_resets (s : State) :
    (closeDay true s).sales = []
      ∧ (closeDay true s).orders = []
      ∧ (∀ i, 1 ≤ i → i ≤ s.totalTables →
          (closeDay true s).tables i
            = some { items := [], total := 0, status := TableStatus.free, adults := 0,
                     children := 0 })
      ∧ (closeDay true s).menu = s.menu := by
  refine ⟨rfl, rfl, ?_, rfl⟩
  intro i h1 h2
  show resetLoop s.totalTables s.tables i = some freeTable
  rw [resetLoop_spec, if_pos ⟨h1, h2⟩]

/-- Witness of C10: after `exOps`, closing the day frees table 3 and keeps
the stock of item 1 at 2. -/
theorem closeDay_resets_witness :
    (run exInit exOps).tables 3 = some exTable3
      ∧ (closeDay true (run exInit exOps)).menu
          = [{ id := "beverages", items := [{ exA with stock := 2 }] },
             { id := "food", items := [exB] }]
      ∧ (closeDay true (run exInit exOps)).tables 3
          = some { items := [], total := 0, status := TableStatus.free, adults := 0,
                   children := 0 } :=
  ⟨by decide, by decide,
    (closeDay_resets (run exInit exOps)).2.2.1 3 (by decide) (by decide)⟩

/-- C11 (fails on the code): an order is placed at table 11 of a registry of
ten tables and the day is closed with confirmation; `closeDay` resets the keys
1 to 10 only, so table 11 is still in the registry, occupied, with its line and
a total of 500, while the tables 1 to 10 are free. -/
theorem closeDay_leaves_table_outside_range_occupied :
    (run exInit exOps11).tables 11
        = some { items := [exA], total := 500, status := TableStatus.occupied, adults := 2,
                 children := 1 }
      ∧ (run exInit exOps11).tables 10 = some freeTable
      ∧ (run exInit exOps11).totalTables = 10
      ∧ (run exInit exOps11).orders = []
      ∧ (run exInit exOps11).sales = [] := by
  decide

/-- C12: in every state reached from the initial state by any sequence of the
public operations, every table whose status is free has an empty item list,
total 0, adults 0 and children 0. -/
theorem free_table_is_empty (menu : List Category) (totalTables : Nat) (ops : List Op)
    (i : Nat) (t : Table)
    (h : (run (initState menu totalTables) ops).tables i = some t)
    (hfree : t.status = TableStatus.free) :
    t.items = [] ∧ t.total = 0 ∧ t.adults = 0 ∧ t.children = 0 := by
  have hinv := run_invariant FreeOk freeOk_step ops _ (freeOk_initState menu totalTables)
  rw [hinv i t h hfree]
  exact ⟨rfl, rfl, rfl, rfl⟩

/-- Witness of C12: after `exOps` and the closure of table 3, table 3 is free
and empty. -/
theorem free_table_is_empty_witness :
    (run (initState exMenu 10) (exOps ++ [Op.closeTable 9 "t9" 3])).tables 3 = some freeTable
      ∧ freeTable.status = TableStatus.free
      ∧ (freeTable.items = [] ∧ freeTable.total = 0 ∧ freeTable.adults = 0
          ∧ freeTable.children = 0) :=
  ⟨by decide, by decide,
    free_table_is_empty exMenu 10 (exOps ++ [Op.closeTable 9 "t9" 3]) 3 freeTable
      (by decide) (by decide)⟩

/-- C13: in every state reached from the initial state by any sequence of the
public operations, every order of the order ledger has a `tableId` whose table
is in the registry with status occupied. -/
theorem order_table_is_occupied (menu : List Category) (totalTables : Nat) (ops : List Op)
    (o : Order) (h : o ∈ (run (initState menu totalTables) ops).orders) :
    ∃ tb, (run (initState menu totalTables) ops).tables o.tableId = some tb
      ∧ tb.status = TableStatus.occupied :=
  run_invariant OrdersOk ordersOk_step ops _ (ordersOk_initState menu totalTables) o h

/-- Witness of C13: after `exOps` the second order of the ledger belongs to
table 3, which is occupied. -/
theorem order_table_is_occupied_witness :
    (run (initState exMenu 10) exOps).orders.length = 2
      ∧ (run (initState exMenu 10) exOps).tables 3 = some exTable3
      ∧ ∃ tb, (run (initState exMenu 10) exOps).tables 3 = some tb
          ∧ tb.status = TableStatus.occupied :=
  ⟨by decide, by decide,
    order_table_is_occupied exMenu 10 exOps
      { id := 8, tableId := 3, items := [{ exA with stock := 3 }],
        status := OrderStatus.pending, timestamp := "t8" } (by decide)⟩

/-- C14 (fails on the code): `updateStock(1, "-5")` stores `parseInt("-5")`,
which is `-5`, as the stock of item 1: the stock is negative, not clamped to
0. -/
theorem updateStock_negative_counterexample :
    (updateStock 1 (JsVal.str "-5") exInit).2.menu
        = [{ id := "beverages", items := [{ exA with stock := -5 }] },
           { id := "food", items := [exB] }]
      ∧ 1 ∈ menuIds exInit.menu
      ∧ ¬ (∀ cat ∈ (updateStock 1 (JsVal.str "-5") exInit).2.menu, ∀ it ∈ cat.items,
            it.id = 1 → 0 ≤ it.stock) := by
  decide

/-- C14 as amended: `updateStock(id, value)` keeps the categories and, in
every category, gives the first item with that id the stock `parseInt(value)`,
or 0 when the value does not parse (`NaN`), without clamping (a negative value
is stored as it is); the other fields of that item, the other items and a
category without the id are unchanged. -/
theorem updateStock_sets_parsed_value (itemId : Nat) (v : JsVal) (s : State) :
    (updateStock itemId v s).2.menu.length = s.menu.length
      ∧ ∀ (k : Nat) (cat : Category), s.menu[k]? = some cat →
          ∃ cat1, (updateStock itemId v s).2.menu[k]? = some cat1
            ∧ cat1.id = cat.id
            ∧ ((∀ it ∈ cat.items, it.id ≠ itemId) → cat1.items = cat.items)
            ∧ (∀ (pre : List Item) (it : Item) (post : List Item),
                cat.items = pre ++ it :: post → (∀ p ∈ pre, p.id ≠ itemId) → it.id = itemId →
                cat1.items = pre ++ { it with stock := (parseInt v).getD 0 } :: post) := by
  unfold updateStock
  refine ⟨by simp, ?_⟩
  intro k cat hk
  refine ⟨{ cat with items := setStockFirst itemId (parseIntOr0 v) cat.items }, ?_, rfl, ?_, ?_⟩
  · simp only [List.getElem?_map, hk, Option.map_some']
  · intro hno
    exact setStockFirst_of_no_match itemId _ cat.items hno
  · intro pre it post hsplit hpre hit
    show setStockFirst itemId (parseIntOr0 v) cat.items = _
    rw [hsplit, setStockFirst_split itemId _ pre post it hpre hit, parseIntOr0_eq]

/-- Witness of C14 as amended: `updateStock(1, "7")` gives item 1, the first
of the first category, the stock 7. -/
theorem updateStock_sets_parsed_value_witness :
    exInit.menu[0]? = some { id := "beverages", items := [exA] }
      ∧ (updateStock 1 (JsVal.str "7") exInit).2.menu
          = [{ id := "beverages", items := [{ exA with stock := 7 }] },
             { id := "food", items := [exB] }]
      ∧ (updateStock 1 (JsVal.str "7") exInit).2.menu.length = exInit.menu.length :=
  ⟨by decide, by decide, (updateStock_sets_parsed_value 1 (JsVal.str "7") exInit).1⟩

/-- C16 (fails on the code): with two lines in the cart, `removeFromCart(-1)`
removes the last line; the cart is not left unchanged. -/
theorem removeFromCart_negative_counterexample :
    (run exInit [Op.addToCart exA, Op.addToCart exB]).cart = [exA, exB]
      ∧ (removeFromCart (-1) (run exInit [Op.addToCart exA, Op.addToCart exB])).cart = [exA]
      ∧ (removeFromCart (-1) (run exInit [Op.addToCart exA, Op.addToCart exB])).cart
          ≠ (run exInit [Op.addToCart exA, Op.addToCart exB]).cart := by
  decide

/-- C16 as amended: `removeFromCart(index)` changes the cart only; if
`0 <= index < length` it removes exactly the line at that position and keeps
the others in order; if `index >= length` the cart is unchanged; a negative
index counts from the end: if `-length <= index < 0` the line at position
`length + index` is removed, and if `index < -length` the first line is
removed (nothing when the cart is empty). -/
theorem removeFromCart_splice (index : Int) (s : State) :
    removeFromCart index s = { s with cart := (removeFromCart index s).cart }
      ∧ (0 ≤ index → index < s.cart.length →
          (removeFromCart index s).cart
            = s.cart.take index.toNat ++ s.cart.drop (index.toNat + 1))
      ∧ ((s.cart.length : Int) ≤ index → (removeFromCart index s).cart = s.cart)
      ∧ (index < 0 → -(s.cart.length : Int) ≤ index →
          (removeFromCart index s).cart
            = s.cart.take ((s.cart.length : Int) + index).toNat
                ++ s.cart.drop (((s.cart.length : Int) + index).toNat + 1))
      ∧ (index < -(s.cart.length : Int) → (removeFromCart index s).cart = s.cart.drop 1) := by
  refine ⟨rfl, ?_, ?_, ?_, ?_⟩
  · intro h0 hlt
    show splice1 index s.cart = _
    rw [splice1_eq, if_neg (by omega), min_eq_left (le_of_lt hlt),
      List.eraseIdx_eq_take_drop_succ]
  · intro hge
    show splice1 index s.cart = _
    have hneg : ¬ index < 0 := by omega
    rw [splice1_eq, if_neg hneg, min_eq_right hge]
    exact List.eraseIdx_of_length_le (by simp)
  · intro hneg hge
    show splice1 index s.cart = _
    rw [splice1_eq, if_pos hneg, max_eq_left (by omega), List.eraseIdx_eq_take_drop_succ]
  · intro hlt
    show splice1 index s.cart = _
    have hneg : index < 0 := by omega
    rw [splice1_eq, if_pos hneg, max_eq_right (by omega), List.eraseIdx_eq_take_drop_succ]
    rfl

/-- Witness of C16 as amended: with the cart `[A, B]`, index 0 removes A and
index 2 removes nothing. -/
theorem removeFromCart_splice_witness :
    (run exInit [Op.addToCart exA, Op.addToCart exB]).cart = [exA, exB]
      ∧ (removeFromCart 0 (run exInit [Op.addToCart exA, Op.addToCart exB])).cart = [exB]
      ∧ (removeFromCart 2 (run exInit [Op.addToCart exA, Op.addToCart exB])).cart
          = (run exInit [Op.addToCart exA, Op.addToCart exB]).cart :=
  ⟨by decide, by decide,
    (removeFromCart_splice 2 (run exInit [Op.addToCart exA, Op.addToCart exB])).2.2.1
      (by decide)⟩

/-- C17: `markOrderReady(id)` with an id that no order of the ledger carries
leaves the whole state unchanged; with a known id it sets the status of the
first order with that id to ready and changes nothing else, and doing it twice
is the same as doing it once; and for every public operation the ledger
afterwards consists of orders that were in the ledger before, in order, each
with the same id, table, items and timestamp and still ready if it was ready,
followed by at most the one new order of a successful `placeOrder`: no call
takes an order back to pending. -/
theorem order_status_only_moves_to_ready (s : State) :
    (∀ orderId : Nat, (∀ o ∈ s.orders, o.id ≠ orderId) → markOrderReady orderId s = s)
      ∧ (∀ (orderId : Nat) (pre : List Order) (o : Order) (post : List Order),
          s.orders = pre ++ o :: post → (∀ p ∈ pre, p.id ≠ orderId) → o.id = orderId →
          markOrderReady orderId s
            = { s with orders := pre ++ { o with status := OrderStatus.ready } :: post })
      ∧ (∀ orderId : Nat,
          markOrderReady orderId (markOrderReady orderId s) = markOrderReady orderId s)
      ∧ (∀ op : Op, ∃ survivors kept added : List Order,
          survivors.Sublist s.orders
            ∧ (step s op).orders = kept ++ added
            ∧ List.Forall₂ keptReady survivors kept
            ∧ (added = [] ∨ ∃ now ts t a c, op = Op.placeOrder now ts t a c
                ∧ added = [{ id := now, tableId := t, items := s.cart,
                             status := OrderStatus.pending, timestamp := ts }])) := by
  refine ⟨?_, ?_, ?_, ?_⟩
  · intro orderId hno
    unfold markOrderReady
    rw [markFirstReady_of_no_match orderId s.orders hno]
  · intro orderId pre o post hsplit hpre ho
    unfold markOrderReady
    rw [hsplit, markFirstReady_split orderId pre post o hpre ho]
  · intro orderId
    unfold markOrderReady
    simp only [markFirstReady_idem]
  · intro op
    have hsame : ∀ s1 : State, s1.orders = s.orders →
        ∃ survivors kept added : List Order,
          survivors.Sublist s.orders ∧ s1.orders = kept ++ added
            ∧ List.Forall₂ keptReady survivors kept
            ∧ (added = [] ∨ ∃ now ts t a c, op = Op.placeOrder now ts t a c
                ∧ added = [{ id := now, tableId := t, items := s.cart,
                             status := OrderStatus.pending, timestamp := ts }]) := by
      intro s1 h1
      exact ⟨s.orders, s.orders, [], List.Sublist.refl _, by rw [h1, List.append_nil],
        keptReady_refl _, Or.inl rfl⟩
    cases op with
    | addToCart item =>
      apply hsame
      simp only [step]
      rw [addToCart_snd]
    | removeFromCart index => exact hsame _ rfl
    | placeOrder now ts t a c =>
      rcases placeOrder_cases now ts t a c s with hd | hs
      · apply hsame
        simp only [step, hd]
      · refine ⟨s.orders, s.orders, _, List.Sublist.refl _, ?_, keptReady_refl _,
          Or.inr ⟨now, ts, t, a, c, rfl, rfl⟩⟩
        simp only [step, placeOrder_sent_eq now ts t a c s hs]
    | markOrderReady orderId =>
      exact ⟨s.orders, markFirstReady orderId s.orders, [], List.Sublist.refl _,
        by simp only [step, markOrderReady, List.append_nil],
        keptReady_markFirstReady orderId s.orders, Or.inl rfl⟩
    | updateStock itemId v => exact hsame _ rfl
    | closeTable now ts t =>
      rcases closeTable_cases now ts t s with hd | ⟨tb, _, _, hc⟩
      · apply hsame
        simp only [step, hd]
      · refine ⟨s.orders.filter (fun o => o.tableId != t),
          s.orders.filter (fun o => o.tableId != t), [], List.filter_sublist _, ?_,
          keptReady_refl _, Or.inl rfl⟩
        simp only [step, hc, List.append_nil]
    | closeDay confirmed =>
      cases confirmed with
      | false => exact hsame _ rfl
      | true =>
        exact ⟨[], [], [], List.nil_sublist _, rfl, List.Forall₂.nil, Or.inl rfl⟩

/-- Witness of C17: after `exOps` the ledger holds the orders 7 and 8;
`markOrderReady(8)` makes the second one ready and keeps the first. -/
theorem order_status_only_moves_to_ready_witness :
    (run exInit exOps).orders
        = [{ id := 7, tableId := 3, items := [exA, exA], status := OrderStatus.pending,
             timestamp := "t7" }]
          ++ { id := 8, tableId := 3, items := [{ exA with stock := 3 }],
               status := OrderStatus.pending, timestamp := "t8" } :: []
      ∧ (markOrderReady 8 (run exInit exOps)).orders.map Order.status
          = [OrderStatus.pending, OrderStatus.ready]
      ∧ markOrderReady 8 (run exInit exOps)
          = { run exInit exOps with
              orders := [{ id := 7, tableId := 3, items := [exA, exA],
                           status := OrderStatus.pending, timestamp := "t7" }]
                ++ { id := 8, tableId := 3, items := [{ exA with stock := 3 }],
                     status := OrderStatus.ready, timestamp := "t8" } :: [] } :=
  ⟨by decide, by decide,
    (order_status_only_moves_to_ready (run exInit exOps)).2.1 8
      [{ id := 7, tableId := 3, items := [exA, exA], status := OrderStatus.pending,
         timestamp := "t7" }]
      { id := 8, tableId := 3, items := [{ exA with stock := 3 }],
        status := OrderStatus.pending, timestamp := "t8" } [] (by decide) (by decide)
      (by decide)⟩

/-- C20 (fails on the code): on a menu where the id 1 occurs in two
categories, a successful `placeOrder` with one cart line of id 1 lowers the
stock of the first item with id 1 of each category: the item of the second
category goes from 5 to 4 as well, only the second item of the first category
keeps its stock. -/
theorem placeOrder_duplicate_id_counterexample :
    (placeOrder 7 "t7" 3 (JsVal.str "2") (JsVal.str "1")
        (run (initState exDupMenu 10) [Op.addToCart exA])).1 = PlaceOutcome.sent
      ∧ (run (initState exDupMenu 10) [Op.addToCart exA]).cart = [exA]
      ∧ (placeOrder 7 "t7" 3 (JsVal.str "2") (JsVal.str "1")
          (run (initState exDupMenu 10) [Op.addToCart exA])).2.menu
        = [{ id := "beverages",
             items := [{ exA with stock := 4 }, { exA with name := "A2" }] },
           { id := "food", items := [{ exA with name := "A3", stock := 4 }, exB] }]
      ∧ (placeOrder 7 "t7" 3 (JsVal.str "2") (JsVal.str "1")
          (run (initState exDupMenu 10) [Op.addToCart exA])).2.menu
        ≠ [{ id := "beverages",
             items := [{ exA with stock := 4 }, { exA with name := "A2" }] },
           { id := "food", items := [{ exA with name := "A3" }, exB] }] := by
  decide

/-- C20 as amended: a successful `placeOrder` applies to the menu, for every
cart line in turn, one discount per category: in every category the first item
with the id of the line has its stock lowered by 1, the later items with that
id in the same category keep their stock, and a category without the id is
unchanged; so an id present in several categories is lowered once in each. -/
theorem placeOrder_discount_per_category (now : Nat) (ts : String) (t : Nat) (a c : JsVal)
    (s : State) (h : (placeOrder now ts t a c s).1 = PlaceOutcome.sent) :
    (placeOrder now ts t a c s).2.menu
        = s.cart.foldl (fun menu cartItem => discountLine cartItem menu) s.menu
      ∧ ∀ (cartItem : Item) (menu : List Category),
          (discountLine cartItem menu).length = menu.length
            ∧ ∀ (k : Nat) (cat : Category), menu[k]? = some cat →
                ∃ cat1, (discountLine cartItem menu)[k]? = some cat1
                  ∧ cat1.id = cat.id
                  ∧ ((∀ it ∈ cat.items, it.id ≠ cartItem.id) → cat1.items = cat.items)
                  ∧ (∀ (pre : List Item) (it : Item) (post : List Item),
                      cat.items = pre ++ it :: post → (∀ p ∈ pre, p.id ≠ cartItem.id) →
                      it.id = cartItem.id →
                      cat1.items = pre ++ { it with stock := it.stock - 1 } :: post) := by
  refine ⟨?_, ?_⟩
  · rw [placeOrder_sent_eq now ts t a c s h]
    rfl
  · intro cartItem menu
    unfold discountLine
    refine ⟨by simp, ?_⟩
    intro k cat hk
    refine ⟨{ cat with items := decrementFirst cartItem.id cat.items }, ?_, rfl, ?_, ?_⟩
    · simp only [List.getElem?_map, hk, Option.map_some']
    · intro hno
      exact decrementFirst_of_no_match cartItem.id cat.items hno
    · intro pre it post hsplit hpre hit
      show decrementFirst cartItem.id cat.items = _
      rw [hsplit, decrementFirst_split cartItem.id pre post it hpre hit]

/-- Witness of C20 as amended: the placement of the counterexample is
successful and its menu is the fold of the per-category discount. -/
theorem placeOrder_discount_per_category_witness :
    (placeOrder 7 "t7" 3 (JsVal.str "2") (JsVal.str "1")
        (run (initState exDupMenu 10) [Op.addToCart exA])).1 = PlaceOutcome.sent
      ∧ (placeOrder 7 "t7" 3 (JsVal.str "2") (JsVal.str "1")
          (run (initState exDupMenu 10) [Op.addToCart exA])).2.menu
        = (run (initState exDupMenu 10) [Op.addToCart exA]).cart.foldl
            (fun menu cartItem => discountLine cartItem menu)
            (run (initState exDupMenu 10) [Op.addToCart exA]).menu :=
  ⟨by decide,
    (placeOrder_discount_per_category 7 "t7" 3 (JsVal.str "2") (JsVal.str "1")
      (run (initState exDupMenu 10) [Op.addToCart exA]) (by decide)).1⟩

/-- C18 (the code misses a case): a line named `constructor`, price 500, is
sold once. `report["constructor"]` on the fresh `{}` is the inherited member,
which is truthy, so `getItemsSoldReport` creates no entry for that name and
its two `+=` leave `NaN` on the inherited member: the report owns no entry
under `constructor`, the lookup reads the inherited member, and the quantity
read from it counts as 0, although one sale line carries the name. -/
theorem itemsSoldReport_inherited_name_has_no_entry :
    (run (initState exCtorMenu 10) exOpsCtor).sales.map Sale.items = [[exCtor]]
      ∧ (∃ it ∈ saleLines (run (initState exCtorMenu 10) exOpsCtor).sales,
          it.name = "constructor")
      ∧ getItemsSoldReport (run (initState exCtorMenu 10) exOpsCtor) "constructor" = none
      ∧ lookupReport (getItemsSoldReport (run (initState exCtorMenu 10) exOpsCtor))
          "constructor" = ReportSlot.inherited
      ∧ quantityOr0 (getItemsSoldReport (run (initState exCtorMenu 10) exOpsCtor))
          "constructor" = 0 := by
  decide

/-- C15 (fails on the code): on `exMenu` (unique ids, stocks 5 and 1) two
lines of item 1 are put in the cart, each with the item as it is in the menu,
`updateStock(1, "1")` sets a non-negative stock, and `placeOrder` then lowers
the stock of item 1 to `-1`. -/
theorem stock_negative_counterexample :
    UniqueIds exMenu
      ∧ (∀ it ∈ menuItems exMenu, 0 ≤ it.stock)
      ∧ opsClaimed (initState exMenu 10) exOps15 = true
      ∧ (run (initState exMenu 10) exOps15).menu
          = [{ id := "beverages", items := [{ exA with stock := -1 }] },
             { id := "food", items := [exB] }]
      ∧ ¬ (∀ it ∈ menuItems (run (initState exMenu 10) exOps15).menu, 0 ≤ it.stock) := by
  decide

/-- C15 as amended: starting from a menu with unique item ids and all stocks
`>= 0`, for every sequence of `addToCart` (each call made with the item as it
currently is in the menu), `removeFromCart`, `placeOrder`, `markOrderReady`,
`closeTable`, `closeDay` and `updateStock` with values that are not below the
number of lines with that id in the cart at the time of the call, the stock of
every menu item remains `>= 0`. -/
theorem stock_stays_nonneg (menu : List Category) (totalTables : Nat) (ops : List Op)
    (hu : UniqueIds menu) (h0 : ∀ it ∈ menuItems menu, 0 ≤ it.stock)
    (hops : opsCovered (initState menu totalTables) ops = true) :
    ∀ it ∈ menuItems (run (initState menu totalTables) ops).menu, 0 ≤ it.stock := by
  have hinit : StockCovers (initState menu totalTables) := by
    refine ⟨hu, ?_⟩
    intro it hit
    show ((countInCart [] it.id : Nat) : Int) ≤ it.stock
    simp only [countInCart, List.filter_nil, List.length_nil, Nat.cast_zero]
    exact h0 it hit
  have hfin := stockCovers_run ops _ hinit hops
  intro it hit
  have := hfin.2 it hit
  omega

/-- Witness of C15 as amended: in `exOps` every `addToCart` is made with the
item as it is in the menu and there is no `updateStock`; the stocks end at 2
and 1. -/
theorem stock_stays_nonneg_witness :
    UniqueIds exMenu
      ∧ opsCovered (initState exMenu 10) exOps = true
      ∧ (menuItems (run (initState exMenu 10) exOps).menu).map Item.stock = [2, 1]
      ∧ ∀ it ∈ menuItems (run (initState exMenu 10) exOps).menu, 0 ≤ it.stock :=
  ⟨by decide, by decide, by decide,
    stock_stays_nonneg exMenu 10 exOps (by decide) (by decide) (by decide)⟩

/-- C19 (fails on the code): on `exMenu` (unique ids and names, ordinary
names) one line of item A is put in the cart and ordered at table 3, which is
not closed; the stock of A went from 5 to 4 and no sale exists yet, so the row
of A has `soldToday` 0 and `totalStock` 4, not the 5 of the start of the
day. -/
theorem beverage_report_open_table_counterexample :
    UniqueIds exMenu
      ∧ UniqueNames exMenu
      ∧ (∀ m ∈ menuItems exMenu, m.name ∉ objectPrototypeKeys)
      ∧ (∀ op ∈ exOps19, opDay exMenu op = true)
      ∧ bevItems exMenu = [exA]
      ∧ exA.stock = 5
      ∧ getBeverageStockReport (run (initState exMenu 10) exOps19)
          = [{ name := "A", currentStock := 4, soldToday := 0, totalStock := 4 }]
      ∧ (getBeverageStockReport (run (initState exMenu 10) exOps19)).map StockRow.totalStock
          ≠ (bevItems exMenu).map Item.stock := by
  decide

/-- C19 as amended: for a menu with unique item ids and names and any sequence
of `addToCart` (each with an item carrying the id and name of a menu item),
`removeFromCart`, `placeOrder`, `markOrderReady` and `closeTable` performed on
the initial state, the report has one row per item of the beverages category,
with its name, `currentStock` its current stock, `soldToday` the quantity of
the entry that `getItemsSoldReport` holds for its name (0 if none) and
`totalStock` their sum; and when no beverage carries the name of a member of
`Object.prototype`, then whenever every table of the registry is free (each
table that received an order has been closed), `totalStock` is the stock the
item had at the start of the day. -/
theorem beverage_report_when_tables_closed (menu : List Category) (totalTables : Nat)
    (ops : List Op) (hu : UniqueIds menu) (hn : UniqueNames menu)
    (hops : ∀ op ∈ ops, opDay menu op = true) :
    getBeverageStockReport (run (initState menu totalTables) ops)
        = (bevItems (run (initState menu totalTables) ops).menu).map (fun it =>
            { name := it.name,
              currentStock := it.stock,
              soldToday :=
                ((getItemsSoldReport (run (initState menu totalTables) ops) it.name).map
                  ReportEntry.quantity).getD 0,
              totalStock := it.stock +
                ((getItemsSoldReport (run (initState menu totalTables) ops) it.name).map
                  ReportEntry.quantity).getD 0 })
      ∧ ((∀ m ∈ bevItems menu, m.name ∉ objectPrototypeKeys) →
          (∀ i t, (run (initState menu totalTables) ops).tables i = some t →
            t.status = TableStatus.free) →
          (getBeverageStockReport (run (initState menu totalTables) ops)).map StockRow.name
              = (bevItems menu).map Item.name
            ∧ (getBeverageStockReport (run (initState menu totalTables) ops)).map
                StockRow.totalStock
              = (bevItems menu).map Item.stock) := by
  have hrows : ∀ s : State, getBeverageStockReport s
      = (bevItems s.menu).map (fun it =>
          { name := it.name,
            currentStock := it.stock,
            soldToday := quantityOr0 (getItemsSoldReport s) it.name,
            totalStock := it.stock + quantityOr0 (getItemsSoldReport s) it.name }) := by
    intro s
    unfold getBeverageStockReport bevItems
    cases s.menu.find? (fun c => c.id == "beverages") with
    | none => rfl
    | some bevCat => rfl
  refine ⟨?_, ?_⟩
  · rw [hrows]
    simp only [quantityOr0_eq]
  · intro hproto hfree
    have hmenu := run_menu ops (initState menu totalTables) hu
      (fun op hop => isUpdateStock_of_opDay menu op (hops op hop))
    have hmenu2 : (run (initState menu totalTables) ops).menu
        = lowerStock
            (fun j => (countInCart (placedLines (initState menu totalTables) ops) j : Int))
            menu := hmenu
    rw [hrows, hmenu2, bevItems_lowerStock]
    simp only [List.map_map]
    refine ⟨?_, ?_⟩
    · apply List.map_congr_left
      intro m _
      rfl
    · apply List.map_congr_left
      intro m hm
      have hsold := sold_eq_placed_of_tables_free menu totalTables ops hu hn hops hfree m
        (bevItems_subset menu m hm) (hproto m hm)
      show m.stock - _ + quantityOr0 _ m.name = m.stock
      rw [hsold]
      omega

/-- Witness of C19 as amended: after `exOps` and the closure of table 3 every
table is free, three lines of A were sold, and the row of A has `totalStock` 5,
the stock of A at the start of the day. -/
theorem beverage_report_when_tables_closed_witness :
    UniqueIds exMenu
      ∧ UniqueNames exMenu
      ∧ (∀ m ∈ bevItems exMenu, m.name ∉ objectPrototypeKeys)
      ∧ getBeverageStockReport (run (initState exMenu 10) (exOps ++ [Op.closeTable 9 "t9" 3]))
          = [{ name := "A", currentStock := 2, soldToday := 3, totalStock := 5 }]
      ∧ (getBeverageStockReport
            (run (initState exMenu 10) (exOps ++ [Op.closeTable 9 "t9" 3]))).map
          StockRow.totalStock
          = (bevItems exMenu).map Item.stock :=
  ⟨by decide, by decide, by decide, by decide,
    ((beverage_report_when_tables_closed exMenu 10 (exOps ++ [Op.closeTable 9 "t9" 3])
      (by decide) (by decide) (by decide)).2 (by decide) exClosed_tables_free).2⟩

end MenuDigital
